import Mathlib

/-!
Verification of the doc-scraper crawl engine.

This file gives a shallow embedding of the core of the `doc_scraper`
package (the `WebScraper` crawl engine in `scraper.py`, the site adapters
in `site_adapters/`, and the response cache) and proves the behavioural
properties stated in the project specification.

Conventions of the embedding:
* Python strings are Lean `String`s; character-level helpers mirror the
  semantics of the Python string methods actually used by the code
  (`strip`, `splitlines`, `split`, `startswith`, substring containment,
  `lower`).
* `urllib.parse.urlparse` is modelled by `urlparse` below, covering the
  scheme/netloc/fragment/query/params splitting performed by CPython.
* Mutable object state (`visited_urls`, `response_cache`, `base_url`,
  `base_domain`, `menu_tree`) becomes an explicit `CrawlState` record
  threaded through the functions; raised exceptions become
  `Except String` results.  The thread-pool fan-out of `scrape_page` is
  modelled by its linearisation: batches are processed sequentially,
  which realises one admissible completion order.
* `requests.Response` is abstracted to a `Page` record carrying the data
  the crawler reads from a response (title, extracted text, discovered
  menu links); the network is an environment `String → Option Page`
  (`none` models a fetch failure, i.e. a raised request exception).
-/

/-! ## Python string primitives -/

/-- Whitespace characters recognised by Python's `str.strip()`. -/
def pyIsSpace (c : Char) : Bool :=
  c = ' ' || c = '\t' || c = '\n' || c = '\r' || c = '\x0b' || c = '\x0c'

/-- Python `str.strip()` on a character list. -/
def pyStripChars (s : List Char) : List Char :=
  ((s.dropWhile pyIsSpace).reverse.dropWhile pyIsSpace).reverse

/-- Python `str.strip()`. -/
def pyStrip (s : String) : String := String.mk (pyStripChars s.toList)

/-- Auxiliary loop for `pySplitlines`: `cur` is the current line, reversed. -/
def pySplitlinesGo : List Char → List Char → List (List Char)
  | [], cur => if cur.isEmpty then [] else [cur.reverse]
  | '\r' :: '\n' :: rest, cur => cur.reverse :: pySplitlinesGo rest []
  | c :: rest, cur =>
    if c = '\n' || c = '\r' || c = '\x0b' || c = '\x0c' then
      cur.reverse :: pySplitlinesGo rest []
    else
      pySplitlinesGo rest (c :: cur)

/-- Python `str.splitlines()` (on the line boundaries that occur in
fetched HTML text). -/
def pySplitlines (s : List Char) : List (List Char) := pySplitlinesGo s []

/-- `strPrefixList pre l` holds when `pre` is a prefix of `l`
(Python `str.startswith`). -/
def strPrefixList : List Char → List Char → Bool
  | [], _ => true
  | _ :: _, [] => false
  | a :: as, b :: bs => a = b && strPrefixList as bs

/-- Python substring containment `sub in s` on character lists. -/
def listContainsSub (sub : List Char) : List Char → Bool
  | [] => sub.isEmpty
  | c :: rest => strPrefixList sub (c :: rest) || listContainsSub sub rest

/-- Python substring containment `sub in s`. -/
def strContains (s sub : String) : Bool := listContainsSub sub.toList s.toList

/-- Python `s.startswith(pre)`. -/
def strStartsWith (s pre : String) : Bool := strPrefixList pre.toList s.toList

/-- Python `s.lower()` (ASCII, as used on URLs). -/
def strLower (s : String) : String := String.mk (s.toList.map Char.toLower)

/-- Python `s.split(sep)` for a single-character separator: keeps empty
pieces, so the result always has one more piece than separators. -/
def splitChar (c : Char) : List Char → List (List Char)
  | [] => [[]]
  | x :: xs =>
    let r := splitChar c xs
    if x = c then [] :: r
    else
      match r with
      | [] => [[x]]
      | h :: t => (x :: h) :: t

/-- Python `line.split("  ")`: split on each non-overlapping occurrence of
two consecutive spaces, scanning left to right, keeping empty pieces. -/
def splitTwoSpace : List Char → List (List Char)
  | [] => [[]]
  | ' ' :: ' ' :: rest => [] :: splitTwoSpace rest
  | x :: xs =>
    match splitTwoSpace xs with
    | [] => [[x]]
    | h :: t => (x :: h) :: t

/-! ## `urllib.parse.urlparse` -/

/-- The result of `urllib.parse.urlparse` (the `params` component is split
off the path but never read by the scraper, so it is not stored). -/
structure ParseResult where
  scheme : String
  netloc : String
  path : String
  query : String
  fragment : String
deriving DecidableEq, Repr

/-- Characters allowed in a URL scheme (letters, digits, `+`, `-`, `.`). -/
def schemeChar (c : Char) : Bool := c.isAlpha || c.isDigit || c = '+' || c = '-' || c = '.'

/-- Split a character list at the first occurrence of `c`; `none` when `c`
does not occur. -/
def splitAtFirst (c : Char) : List Char → Option (List Char × List Char)
  | [] => none
  | x :: xs =>
    if x = c then some ([], xs)
    else
      match splitAtFirst c xs with
      | none => none
      | some (a, b) => some (x :: a, b)

/-- Take the netloc: everything up to the first `/`, `?` or `#`. -/
def takeNetloc : List Char → List Char × List Char
  | [] => ([], [])
  | x :: xs =>
    if x = '/' || x = '?' || x = '#' then ([], x :: xs)
    else
      let (a, b) := takeNetloc xs
      (x :: a, b)

/-- Cut a path segment at its first `;` (CPython `_splitparams`). -/
def dropParamsSeg (seg : List Char) : List Char :=
  match splitAtFirst ';' seg with
  | some (a, _) => a
  | none => seg

/-- Strip `;params` from the last path segment, as `urlparse` does on top
of `urlsplit`. -/
def stripParamsChars (path : List Char) : List Char :=
  let parts := splitChar '/' path
  match parts.getLast? with
  | none => path
  | some seg => List.intercalate ['/'] (parts.dropLast ++ [dropParamsSeg seg])

/-- `urllib.parse.urlparse` on a character list: split the scheme (when
the prefix before the first `:` is a well-formed scheme), then `//netloc`,
then the fragment after the first `#`, then the query after the first `?`,
then params. -/
def urlparseChars (cs : List Char) : ParseResult :=
  let sr : List Char × List Char :=
    match splitAtFirst ':' cs with
    | some (pre, post) =>
      if !pre.isEmpty && (pre.headD ' ').isAlpha && pre.all schemeChar then
        (pre.map Char.toLower, post)
      else ([], cs)
    | none => ([], cs)
  let nr : List Char × List Char :=
    match sr.2 with
    | '/' :: '/' :: r => takeNetloc r
    | r => ([], r)
  let rf : List Char × List Char :=
    match splitAtFirst '#' nr.2 with
    | some (a, b) => (a, b)
    | none => (nr.2, [])
  let rq : List Char × List Char :=
    match splitAtFirst '?' rf.1 with
    | some (a, b) => (a, b)
    | none => (rf.1, [])
  { scheme := String.mk sr.1
    netloc := String.mk nr.1
    path := String.mk (stripParamsChars rq.1)
    query := String.mk rq.2
    fragment := String.mk rf.2 }

/-- `urllib.parse.urlparse`. -/
def urlparse (url : String) : ParseResult := urlparseChars url.toList

/-- `WebScraper._is_valid_url`: the parse must yield both a scheme and a
netloc (`all([result.scheme, result.netloc])`). -/
def is_valid_url (url : String) : Bool :=
  (urlparse url).scheme ≠ "" && (urlparse url).netloc ≠ ""

/-- `WebScraper._is_same_domain`: `True` while `base_domain` is unset,
otherwise compare the URL's netloc with `base_domain`. -/
def is_same_domain (base_domain : Option String) (url : String) : Bool :=
  match base_domain with
  | none => true
  | some d => (urlparse url).netloc = d

/-! ## Configuration (`config.ScraperConfig`) -/

/-- The configuration fields of `ScraperConfig` consumed by the crawl
engine (networking/pool fields are external-collaborator configuration). -/
structure ScraperConfig where
  batch_size : Nat := 20
  response_cache_size : Nat := 100
  excluded_paths : List String :=
    ["/search", "/login", "/signup", "/register", "/contact", "/download", "/print"]
  menu_selectors : List String :=
    ["nav[role=navigation] a", ".sidebar-menu a", ".docs-menu a", ".toc a",
     ".nav-links a", ".menu-item a", ".md-nav__item a", ".md-sidebar a",
     ".md-nav__link", ".snow-sidebar-nav a", ".nav-tree a",
     ".documentationContent nav a", ".navigation-menu a",
     ".header-navigation-menu a", ".main-nav a", ".page-list a",
     ".article-nav a", "a[href^=/]", "a[href^=./]", "a[href^=../]"]
  priority_selectors : List String :=
    ["nav[role=navigation] a", ".sidebar-menu a", ".docs-menu a", ".toc a",
     ".snow-sidebar-nav a", ".md-nav__item a", ".nav-tree a",
     ".documentationContent nav a", ".navigation-menu a"]

/-! ## Pages, crawl state, menu tree (`models.MenuNode`) -/

/-- Abstraction of a fetched and parsed response: what the crawler reads
from a page (`_extract_title`, `_extract_text`, `_find_menu_links`). -/
structure Page where
  title : String
  text : String
  links : List String
deriving DecidableEq, Repr

/-- `models.MenuNode`: url, title, children, level, parent_url. -/
inductive MenuNode where
  | mk : String → String → List MenuNode → Nat → Option String → MenuNode

/-- The `url` field of a `MenuNode`. -/
def MenuNode.url : MenuNode → String
  | .mk u _ _ _ _ => u

/-- The `title` field of a `MenuNode`. -/
def MenuNode.title : MenuNode → String
  | .mk _ t _ _ _ => t

/-- The `children` field of a `MenuNode`. -/
def MenuNode.children : MenuNode → List MenuNode
  | .mk _ _ cs _ _ => cs

/-- The `level` field of a `MenuNode`. -/
def MenuNode.level : MenuNode → Nat
  | .mk _ _ _ l _ => l

/-- The `parent_url` field of a `MenuNode`. -/
def MenuNode.parent_url : MenuNode → Option String
  | .mk _ _ _ _ p => p

/-- The mutable per-run state of a `WebScraper` instance, plus a ghost
`fetchLog` recording every URL passed to `session.get` (in order), used to
state the at-most-one-fetch property. -/
structure CrawlState where
  visited_urls : List String
  base_url : Option String
  base_domain : Option String
  menu_tree : Option MenuNode
  response_cache : List (String × Page)
  fetchLog : List String

/-- The state of a freshly constructed `WebScraper`. -/
def initState : CrawlState :=
  { visited_urls := [], base_url := none, base_domain := none,
    menu_tree := none, response_cache := [], fetchLog := [] }

/-! ## Response cache (`WebScraper._get_cached_or_request`) -/

/-- Association-list lookup, modelling `url in dict` / `dict[url]`. -/
def alookup (url : String) : List (String × Page) → Option Page
  | [] => none
  | (k, v) :: rest => if k = url then some v else alookup url rest

/-- Store a response in the `OrderedDict` cache and enforce the size
bound: append the new entry, then `popitem(last=False)` (drop the
oldest-inserted entry) when the size exceeds the capacity. -/
def cacheStore (cap : Nat) (cache : List (String × Page)) (url : String) (p : Page) :
    List (String × Page) :=
  let c := cache ++ [(url, p)]
  if cap < c.length then c.tail else c

/-- `WebScraper._get_cached_or_request`: return the cached response when
present (leaving the cache untouched); otherwise perform the request
(recorded in `fetchLog`), and on success cache the response, evicting
per the FIFO bound.  A failed request (`env url = none`, covering raised
request exceptions and `raise_for_status`) caches nothing. -/
def get_cached_or_request (env : String → Option Page) (cap : Nat)
    (st : CrawlState) (url : String) : CrawlState × Option Page :=
  match alookup url st.response_cache with
  | some p => (st, some p)
  | none =>
    let st1 := { st with fetchLog := st.fetchLog ++ [url] }
    match env url with
    | none => (st1, none)
    | some p => ({ st1 with response_cache := cacheStore cap st1.response_cache url p }, some p)

/-- A sequence of `_get_cached_or_request` calls (responses discarded). -/
def runRequests (env : String → Option Page) (cap : Nat)
    (st : CrawlState) (urls : List String) : CrawlState :=
  urls.foldl (fun s u => (get_cached_or_request env cap s u).1) st

/-! ## Site adapters (`site_adapters/`) -/

/-- `BaseSiteAdapter.can_handle`: empty URLs are rejected, otherwise the
URL's netloc must be among the adapter's domains. -/
def base_can_handle (domains : List String) (url : String) : Bool :=
  if url = "" then false else (urlparse url).netloc ∈ domains

/-- `DefaultSiteAdapter.can_handle`: any URL. -/
def default_can_handle (_url : String) : Bool := true

/-- `SnowflakeAdapter.can_handle` (inherited from the base class with
`domains = {"docs.snowflake.com"}`). -/
def snowflake_can_handle (url : String) : Bool :=
  base_can_handle ["docs.snowflake.com"] url

/-- `AdapterRegistry.get_adapter_for_url` over an arbitrary registration
list (adapter name paired with its `can_handle`): first registered
adapter, in registration order, whose `can_handle` accepts the URL;
the default adapter when none matches. -/
def get_adapter_for_url_from (regs : List (String × (String → Bool))) (url : String) : String :=
  match regs with
  | [] => "default"
  | (name, ch) :: rest => if ch url then name else get_adapter_for_url_from rest url

/-- The registrations performed by `site_adapters/__init__.py`, in order:
`default` first, then `snowflake`. -/
def registeredAdapters : List (String × (String → Bool)) :=
  [("default", default_can_handle), ("snowflake", snowflake_can_handle)]

/-- `AdapterRegistry.get_adapter_for_url` for the registry as built by the
package. -/
def get_adapter_for_url (url : String) : String :=
  get_adapter_for_url_from registeredAdapters url

/-- `SnowflakeAdapter.filter_urls`: keep only `docs.snowflake.com` URLs
that are not archive/release-notes/previous-versions pages. -/
def snowflake_filter_urls (urls : List String) (_base_url : String) : List String :=
  urls.filter fun url =>
    (urlparse url).netloc = "docs.snowflake.com" &&
    !(["/archive/", "/release-notes/", "/previous-versions/"].any fun x =>
        strContains (strLower url) x)

/-- Dispatch `adapter.filter_urls` by adapter name; the base/default
implementation is the identity. -/
def adapter_filter_urls (name : String) (urls : List String) (base_url : String) : List String :=
  if name = "snowflake" then snowflake_filter_urls urls base_url else urls

/-! ## URL filtering (`WebScraper._filter_urls`) -/

/-- The sort key of `_filter_urls`: `len(urlparse(u).path.split("/"))`. -/
def pathSegments (u : String) : Nat := (splitChar '/' (urlparse u).path.toList).length

/-- Stable insertion placing `x` before the first element whose key is
`≤ key x`. -/
def insertByKeyDesc (key : String → Nat) (x : String) : List String → List String
  | [] => [x]
  | y :: ys => if key y ≤ key x then x :: y :: ys else y :: insertByKeyDesc key x ys

/-- Stable sort by descending key, the unique stable realisation of
Python's `list.sort(key=..., reverse=True)`. -/
def sortByKeyDesc (key : String → Nat) : List String → List String
  | [] => []
  | x :: xs => insertByKeyDesc key x (sortByKeyDesc key xs)

/-- The per-URL test of `_filter_urls`' first loop: drop visited URLs,
other-domain URLs, URLs containing an excluded path, URLs with a fragment
or query, URLs not prefixed by `base_url` (when `base_url` is truthy), and
URLs containing a scheme-pseudo indicator. -/
def filter_urls_basic_keep (cfg : ScraperConfig) (visited : List String)
    (base_url : Option String) (base_domain : Option String) (url : String) : Bool :=
  !(visited.contains url) &&
  is_same_domain base_domain url &&
  !(cfg.excluded_paths.any fun excluded => strContains url excluded) &&
  (urlparse url).fragment = "" && (urlparse url).query = "" &&
  (match base_url with
   | some b => if b = "" then true else strStartsWith url b
   | none => true) &&
  !(["javascript:", "mailto:", "tel:", "#", "?"].any fun x => strContains url x)

/-- `WebScraper._filter_urls`: the basic filtering loop, then the
site-specific `filter_urls` of the adapter resolved for `base_url or ""`,
then the stable sort by descending path-segment count. -/
def filter_urls (cfg : ScraperConfig) (visited : List String)
    (base_url : Option String) (base_domain : Option String)
    (urls : List String) : List String :=
  let filtered := urls.filter (filter_urls_basic_keep cfg visited base_url base_domain)
  let adapterName := get_adapter_for_url (base_url.getD "")
  let filtered := adapter_filter_urls adapterName filtered (base_url.getD "")
  sortByKeyDesc pathSegments filtered

/-! ## Cache lemmas -/

/-- The default (placeholder) page used only to state cache contents. -/
def Page.empty : Page := { title := "", text := "", links := [] }

/-- Pure cache evolution of a sequence of `_get_cached_or_request` calls:
the cache is unchanged on hits and failed fetches, and extended through
`cacheStore` on successful misses. -/
def cacheRun (env : String → Option Page) (cap : Nat)
    (cache : List (String × Page)) : List String → List (String × Page)
  | [] => cache
  | u :: rest =>
    match alookup u cache with
    | some _ => cacheRun env cap cache rest
    | none =>
      match env u with
      | none => cacheRun env cap cache rest
      | some p => cacheRun env cap (cacheStore cap cache u p) rest

/-! ## `urllib.parse.urljoin` (external stdlib collaborator) -/

/-- Pop-resolving of `.` and `..` path segments (CPython `urljoin`). -/
def resolveDots (segs : List String) : List String :=
  segs.foldl
    (fun acc seg =>
      if seg = ".." then acc.dropLast
      else if seg = "." then acc
      else acc ++ [seg])
    []

/-- Drop empty interior segments (`segments[1:-1] = filter(None, ...)`). -/
def filterInterior (segs : List String) : List String :=
  match segs with
  | [] => []
  | x :: rest =>
    match rest.getLast? with
    | none => [x]
    | some lastSeg => x :: ((rest.dropLast.filter (fun s => s ≠ "")) ++ [lastSeg])

/-- `urllib.parse.urlunsplit` reassembly. -/
def urlunsplit (scheme netloc path query fragment : String) : String :=
  let url := path
  let url :=
    if netloc ≠ "" || (url ≠ "" && strStartsWith url "//") then
      (if url ≠ "" && !strStartsWith url "/" then "//" ++ netloc ++ "/" ++ url
       else "//" ++ netloc ++ url)
    else url
  let url := if scheme ≠ "" then scheme ++ ":" ++ url else url
  let url := if query ≠ "" then url ++ "?" ++ query else url
  let url := if fragment ≠ "" then url ++ "#" ++ fragment else url
  url

/-- Model of `urllib.parse.urljoin` (an external stdlib collaborator of
the scraper, like the HTTP transport): absolute references pass through,
netloc-relative, root-relative and path-relative references resolve
against the base with `.`/`..` segment resolution, and empty-path
references inherit the base path. -/
def urljoin (base url : String) : String :=
  if base = "" then url
  else if url = "" then base
  else
    let b := urlparse base
    let u := urlparse url
    let scheme := if u.scheme = "" then b.scheme else u.scheme
    if scheme ≠ b.scheme then url
    else if u.netloc ≠ "" then urlunsplit scheme u.netloc u.path u.query u.fragment
    else if u.path = "" then
      urlunsplit scheme b.netloc b.path (if u.query = "" then b.query else u.query) u.fragment
    else
      let segments :=
        if strStartsWith u.path "/" then (splitChar '/' u.path.toList).map String.mk
        else
          filterInterior
            (((splitChar '/' b.path.toList).map String.mk).dropLast ++
              (splitChar '/' u.path.toList).map String.mk)
      let resolved := resolveDots segments
      let resolved :=
        if segments.getLast? = some "." || segments.getLast? = some ".." then
          resolved ++ [""]
        else resolved
      let path := String.intercalate "/" resolved
      let path := if path = "" then "/" else path
      urlunsplit scheme b.netloc path u.query u.fragment

/-! ## Menu-link discovery (`_find_menu_links`, C9) -/

/-- A parsed page abstracted at CSS-selector granularity: for each
selector, the `href` attributes of the anchors `soup.select(selector)`
matches, in document order. -/
abbrev SelPage := List (String × List String)

/-- The hrefs matched by one selector. -/
def selHrefs (page : SelPage) (sel : String) : List String :=
  (page.filter (fun e => e.1 = sel)).flatMap (fun e => e.2)

/-- Adding an element to a Python `set`, determinised as append-if-new. -/
def setAdd (acc : List String) (x : String) : List String :=
  if acc.contains x then acc else acc ++ [x]

/-- `BaseSiteAdapter.find_menu_links`: for each selector in order, resolve
every matched href against `current_url` and union into a set. -/
def find_menu_links_adapter (page : SelPage) (current_url : String)
    (menu_selectors : List String) : List String :=
  (menu_selectors.flatMap fun sel => (selHrefs page sel).map (urljoin current_url)).foldl
    setAdd []

/-- `WebScraper._find_menu_links`: collect links from the priority
selectors first; only when fewer than 5 links were found, additionally
evaluate the remaining (non-priority) menu selectors and union the
results. -/
def find_menu_links (cfg : ScraperConfig) (page : SelPage) (current_url : String) :
    List String :=
  let priority_links := find_menu_links_adapter page current_url cfg.priority_selectors
  let menu_links := priority_links.foldl setAdd []
  if menu_links.length < 5 then
    let additional_selectors :=
      cfg.menu_selectors.filter fun s => !(cfg.priority_selectors.contains s)
    let additional_links := find_menu_links_adapter page current_url additional_selectors
    additional_links.foldl setAdd menu_links
  else menu_links

/-! ## Parsed HTML documents (BeautifulSoup abstraction) -/

/-- A parsed HTML node: an element with tag, CSS classes, optional id and
children, or a navigable text string.  A whole document is rooted at a
pseudo-element (BeautifulSoup's `[document]`), which no CSS selector
matches. -/
inductive Html where
  | elem : String → List String → Option String → List Html → Html
  | text : String → Html

/-- The children of a node (empty for text nodes). -/
def childrenOf : Html → List Html
  | .text _ => []
  | .elem _ _ _ cs => cs

/-- The tag name of a node (`None` for text nodes is modelled by `""`
never being a heading/content tag). -/
def tagIs (t : String) : Html → Bool
  | .text _ => false
  | .elem tg _ _ _ => tg = t

/-- Heading elements `h1`..`h6`. -/
def isHeading (h : Html) : Bool :=
  tagIs "h1" h || tagIs "h2" h || tagIs "h3" h || tagIs "h4" h ||
  tagIs "h5" h || tagIs "h6" h

mutual
/-- `element.get_text()`: concatenation of all descendant strings. -/
def getTextH : Html → String
  | .text s => s
  | .elem _ _ _ cs => getTextL cs

/-- `get_text` over a list of nodes. -/
def getTextL : List Html → String
  | [] => ""
  | c :: cs => getTextH c ++ getTextL cs
end

/-- Whether a node is an element carrying one of the decomposed tags. -/
def isRemovedTag (tags : List String) (x : Html) : Bool :=
  match x with
  | .elem t _ _ _ => tags.contains t
  | .text _ => false

mutual
/-- `for element in soup([...tags...]): element.decompose()` applied to a
list of sibling trees: matching elements are removed with their whole
subtree, the rest are cleaned recursively. -/
def removeTagsList (tags : List String) : List Html → List Html
  | [] => []
  | x :: rest =>
    if isRemovedTag tags x then removeTagsList tags rest
    else removeTagsNode tags x :: removeTagsList tags rest

/-- Decomposition below one (non-removed) node. -/
def removeTagsNode (tags : List String) : Html → Html
  | .text s => .text s
  | .elem t c i cs => .elem t c i (removeTagsList tags cs)
end

/-- Decomposition applied to a document (the root pseudo-element itself is
not a real tag and is never removed). -/
def removeTags (tags : List String) : Html → Html
  | .text s => .text s
  | .elem t c i cs => .elem t c i (removeTagsList tags cs)

/-- Interpretation of the simple CSS selectors used by `extract_content`:
`.cls` matches by class, `#id` by id, anything else by tag name. -/
def matchesSel (sel : String) (h : Html) : Bool :=
  match h with
  | .text _ => false
  | .elem t classes idAttr _ =>
    if strStartsWith sel "." then classes.contains (String.mk (sel.toList.drop 1))
    else if strStartsWith sel "#" then idAttr = some (String.mk (sel.toList.drop 1))
    else t = sel

mutual
/-- First selector match over sibling trees, in document order. -/
def selectFirstList (sel : String) : List Html → Option Html
  | [] => none
  | x :: rest =>
    match selectFirstNode sel x with
    | some r => some r
    | none => selectFirstList sel rest

/-- First selector match in a tree (the node itself, then its children). -/
def selectFirstNode (sel : String) : Html → Option Html
  | .text _ => none
  | .elem t c i cs =>
    if matchesSel sel (.elem t c i cs) then some (.elem t c i cs)
    else selectFirstList sel cs
end

/-- `soup.select_one(sel)`: first matching descendant of the document. -/
def soup_select_one (soup : Html) (sel : String) : Option Html :=
  selectFirstList sel (childrenOf soup)

/-- `soup.body` / `tag.find(name)`: first descendant with the given tag. -/
def soup_body (soup : Html) : Option Html :=
  selectFirstList "body" (childrenOf soup)

mutual
/-- `find_all(p)` over sibling trees: document-order (preorder) matches. -/
def findAllList (p : Html → Bool) : List Html → List Html
  | [] => []
  | x :: rest => (if p x then [x] else []) ++ findAllInside p x ++ findAllList p rest

/-- `find_all(p)` over the descendants of a node. -/
def findAllInside (p : Html → Bool) : Html → List Html
  | .text _ => []
  | .elem _ _ _ cs => findAllList p cs
end

mutual
/-- For every heading element (in `find_all` document order), pair it with
its following siblings up to the next heading — the nodes its
`next_sibling` walk visits. -/
def headingJobsList : List Html → List (Html × List Html)
  | [] => []
  | x :: rest =>
    (if isHeading x then [(x, rest.takeWhile (fun s => !isHeading s))] else []) ++
    headingJobsInside x ++ headingJobsList rest

/-- Heading jobs among the descendants of a node. -/
def headingJobsInside : Html → List (Html × List Html)
  | .text _ => []
  | .elem _ _ _ cs => headingJobsList cs
end

/-! ## Content extraction (`BaseSiteAdapter` / `SnowflakeAdapter`) -/

/-- One table row: its `th`/`td` cells' text joined with `" | "`. -/
def renderRow (row : Html) : String :=
  String.intercalate " | "
    ((findAllInside (fun c => tagIs "th" c || tagIs "td" c) row).map
      (fun c => pyStrip (getTextH c)))

/-- A `table` sibling: `"Table:"` then one line per `tr` row. -/
def renderTable (tbl : Html) : String :=
  "\n" ++ "Table:\n" ++
    String.join ((findAllInside (tagIs "tr") tbl).map (fun r => renderRow r ++ "\n")) ++ "\n"

/-- A `ul`/`ol` sibling: one `"- item"` line per `li`. -/
def renderUl (lst : Html) : String :=
  "\n" ++
    String.intercalate "\n"
      ((findAllInside (tagIs "li") lst).map (fun i => "- " ++ pyStrip (getTextH i))) ++
  "\n"

/-- The fenced code-block rendering. -/
def renderCode (codeText : String) : String :=
  "\nCode Block:\n```\n" ++ codeText ++ "\n```\n"

/-- The content contributed by one sibling of a heading, following the
`elif` chain of `extract_content`: paragraphs verbatim (stripped), `pre`
elements or elements containing a `code` descendant as fenced code
blocks, tables as pipe-delimited rows, lists as dashed lines.  A bare
text sibling falls into the code branch through the truthiness of
`str.find('code')` (which is `-1`, hence truthy, when absent, and falsy
exactly when the text starts with `"code"`). -/
def siblingParts (s : Html) : List String :=
  match s with
  | .elem t _ _ cs =>
    if t = "p" then [pyStrip (getTextL cs)]
    else if t = "pre" || !(findAllList (tagIs "code") cs).isEmpty then
      (if pyStrip (getTextL cs) ≠ "" then [renderCode (pyStrip (getTextL cs))] else [])
    else if t = "table" then [renderTable (.elem t [] none cs)]
    else if t = "ul" || t = "ol" then [renderUl (.elem t [] none cs)]
    else []
  | .text s =>
    if !(strStartsWith s "code") then
      (if pyStrip s ≠ "" then [renderCode (pyStrip s)] else [])
    else []

/-- The parts contributed by one heading: when its stripped text is
non-empty, a `"\n\n<title>\n===...\n"` block followed by the parts of each
following sibling up to the next heading. -/
def headingParts (job : Html × List Html) : List String :=
  let ht := pyStrip (getTextH job.1)
  if ht = "" then []
  else
    ("\n\n" ++ ht ++ "\n" ++ String.mk (List.replicate ht.length '=') ++ "\n") ::
    job.2.flatMap siblingParts

/-- The `content_parts` accumulated by the heading walk of
`extract_content` over a main-content region. -/
def contentParts (mc : Html) : List String :=
  (headingJobsInside mc).flatMap headingParts

/-- `"\n".join(...)` of cleaned chunks (`BaseSiteAdapter.extract_content`
lines 100–103): strip each line, split on two consecutive spaces, strip
the pieces, keep non-empty chunks. -/
def cleanTextChars (s : List Char) : List Char :=
  let lines := (pySplitlines s).map pyStripChars
  let chunks := lines.flatMap (fun l => (splitTwoSpace l).map pyStripChars)
  List.intercalate ['\n'] (chunks.filter (fun c => !c.isEmpty))

/-- The whitespace-cleaning fallback text extraction. -/
def cleanText (s : String) : String := String.mk (cleanTextChars s.toList)

/-- The candidate main-content selectors of the base adapter, in order. -/
def baseSelectors : List String := [".main-content", "main", "article", ".content", "#content"]

/-- The candidate main-content selectors of the Snowflake adapter. -/
def snowflakeSelectors : List String :=
  [".documentationContent", ".main-content", "main", "article", ".content-container"]

/-- Try candidate selectors in order, first match wins. -/
def firstSelectorMatch (soup : Html) : List String → Option Html
  | [] => none
  | sel :: rest =>
    match soup_select_one soup sel with
    | some m => some m
    | none => firstSelectorMatch soup rest

/-- Main-content region of `BaseSiteAdapter.extract_content`: the first
matching candidate selector, else `soup.body`. -/
def base_main_content (soup : Html) : Option Html :=
  match firstSelectorMatch soup baseSelectors with
  | some m => some m
  | none => soup_body soup

/-- Main-content region of `SnowflakeAdapter.extract_content`. -/
def snowflake_main_content (soup : Html) : Option Html :=
  match firstSelectorMatch soup snowflakeSelectors with
  | some m => some m
  | none => soup_body soup

/-- `BaseSiteAdapter.extract_content` (the Default behaviour): remove
script/style/nav/footer/iframe elements, locate the main-content region,
run the heading walk, and fall back to cleaned plain text when the walk
produced no parts.  `none` models the `AttributeError` crash when neither
a selector nor a `body` is present. -/
def base_extract_content (soup : Html) : Option String :=
  let stripped := removeTags ["script", "style", "nav", "footer", "iframe"] soup
  match base_main_content stripped with
  | none => none
  | some mc =>
    let parts := contentParts mc
    if parts.isEmpty then some (cleanText (getTextH mc))
    else some (String.intercalate "\n" parts)

/-- `SnowflakeAdapter.extract_content`: like the base walk but with the
Snowflake selector list, without removing `nav`, and falling back to
`super().extract_content(soup)` — the base extraction applied to the
already-stripped soup — when the walk produced no parts. -/
def snowflake_extract_content (soup : Html) : Option String :=
  let stripped := removeTags ["script", "style", "footer", "iframe"] soup
  match snowflake_main_content stripped with
  | none => none
  | some mc =>
    let parts := contentParts mc
    if parts.isEmpty then base_extract_content stripped
    else some (String.intercalate "\n" parts)

/-- Modelled from the spec (§4.2): the Default extraction as the
specification describes it — remove non-content elements, locate the
main-content region by first selector match (else the body), and
serialise that region to whitespace-cleaned plain text, with no
heading-block restructuring. -/
def base_extract_plain (soup : Html) : Option String :=
  let stripped := removeTags ["script", "style", "nav", "footer", "iframe"] soup
  match base_main_content stripped with
  | none => none
  | some mc => some (cleanText (getTextH mc))

/-! ## Heading-freeness and selector lemmas -/

mutual
/-- No heading element occurs in this tree. -/
def noHeadingsNode : Html → Bool
  | .text _ => true
  | .elem t c i cs => !isHeading (.elem t c i cs) && noHeadingsList cs

/-- No heading element occurs in these sibling trees. -/
def noHeadingsList : List Html → Bool
  | [] => true
  | x :: rest => noHeadingsNode x && noHeadingsList rest
end

/-- A heading-free document with textual content. -/
def c6doc : Html :=
  .elem "[document]" [] none
    [.elem "html" [] none
      [.elem "body" [] none
        [.elem "p" [] none [.text "hello world"]]]]

/-- The body region that extraction resolves for `c6doc`. -/
def c6body : Html :=
  .elem "body" [] none [.elem "p" [] none [.text "hello world"]]

/-! ## C7: Default extraction -/

mutual
/-- No element with one of the given tags occurs in this tree. -/
def noBannedNode (tags : List String) : Html → Bool
  | .text _ => true
  | .elem t _ _ cs => !(tags.contains t) && noBannedList tags cs

/-- No element with one of the given tags occurs in these trees. -/
def noBannedList (tags : List String) : List Html → Bool
  | [] => true
  | x :: rest => noBannedNode tags x && noBannedList tags rest
end

/-- A document with a heading: the Default extraction produces the
heading-block rendering, not the whitespace-cleaned plain text of the
main region that the specification describes. -/
def c7doc : Html :=
  .elem "[document]" [] none
    [.elem "html" [] none
      [.elem "body" [] none
        [.elem "h1" [] none [.text "Title"],
         .elem "p" [] none [.text "hello"]]]]

/-! ## The crawl engine (`WebScraper.scrape_page`, C1–C3) -/

/-- Mark a URL visited immediately, before fetching (`scraper.py` line
155), to prevent duplicate processing. -/
def markVisited (st : CrawlState) (url : String) : CrawlState :=
  { st with visited_urls := url :: st.visited_urls }

/-- Fix `base_url`/`base_domain` on the first request (lines 160–165). -/
def initBase (st : CrawlState) (url : String) : CrawlState :=
  if st.base_url = none then
    { st with base_url := some url, base_domain := some (urlparse url).netloc }
  else st

/-- Fuel-driven batch slicing: `range(0, len(menu_links), batch_size)`
slices of `batch_size` links (the fuel is the list length, which always
suffices; a zero batch size cannot arise from the configuration and is
clamped to keep the slicing productive). -/
def toChunksGo (n : Nat) : Nat → List String → List (List String)
  | _, [] => []
  | 0, l => [l]
  | Nat.succ fuel, l => l.take (max n 1) :: toChunksGo n fuel (l.drop (max n 1))

/-- Split the discovered links into consecutive batches. -/
def toChunks (n : Nat) (l : List String) : List (List String) :=
  toChunksGo n l.length l

/-- Process the links of one batch (the `ThreadPoolExecutor` fan-out with
its `as_completed` collection loop, linearised): each link is visited in
turn; a link whose visit raises is logged and skipped — its contribution
is dropped but the loop continues (lines 261–285). -/
def runBatch
    (f : String → CrawlState → CrawlState × Except String (List (String × String) × Option MenuNode)) :
    List String → CrawlState → CrawlState × List (String × String) × List MenuNode
  | [], st => (st, [], [])
  | link :: rest, st =>
    let r1 := f link st
    let r2 := runBatch f rest r1.1
    match r1.2 with
    | Except.ok (sub, n) => (r2.1, sub ++ r2.2.1, n.toList ++ r2.2.2)
    | Except.error _ => r2

/-- Process the batches in order; each batch is first re-filtered against
the current visited set (line 237). -/
def runChunksAux
    (f : String → CrawlState → CrawlState × Except String (List (String × String) × Option MenuNode)) :
    List (List String) → CrawlState → CrawlState × List (String × String) × List MenuNode
  | [], st => (st, [], [])
  | chunk :: rest, st =>
    let batch := chunk.filter (fun link => !(st.visited_urls.contains link))
    let r1 := runBatch f batch st
    let r2 := runChunksAux f rest r1.1
    (r2.1, r1.2.1 ++ r2.2.1, r1.2.2 ++ r2.2.2)

/-- The level of a freshly created node: `0` for the root, else
`parent_node.level + 1` (lines 190–197). -/
def parentLevel : Option MenuNode → Nat
  | none => 0
  | some pn => pn.level + 1

/-- `WebScraper.scrape_page`: validate the URL; return `({}, None)` at
once when the URL is already visited; otherwise mark it visited, fix the
base URL on the first visit, fetch through the cache, build the page's
`MenuNode` (level `parent.level + 1`, or `0` for the root), and when
`max_depth > 0` filter the discovered links and recurse into them in
batches at `max_depth - 1` with the current node as parent.  Raised
exceptions are modelled by `Except.error`; the mutated state is returned
alongside, as the Python instance state survives an exception. -/
def scrape_page (env : String → Option Page) (cfg : ScraperConfig) :
    Nat → String → Option MenuNode → CrawlState →
    CrawlState × Except String (List (String × String) × Option MenuNode)
  | d, url, parent_node, st =>
    if is_valid_url url = false then (st, Except.error "Invalid URL provided")
    else if url ∈ st.visited_urls then (st, Except.ok ([], none))
    else
      match get_cached_or_request env cfg.response_cache_size
          (initBase (markVisited st url) url) url with
      | (st3, none) => (st3, Except.error "Failed to fetch URL")
      | (st3, some page) =>
        let current_level := parentLevel parent_node
        let parent_url := parent_node.map MenuNode.url
        let proto := MenuNode.mk url page.title [] current_level parent_url
        let isRoot := st3.menu_tree.isNone
        let st4 := if isRoot then { st3 with menu_tree := some proto } else st3
        let ex :=
          match d with
          | 0 => (st4, [], [])
          | Nat.succ d' =>
            runChunksAux (fun link s => scrape_page env cfg d' link (some proto) s)
              (toChunks cfg.batch_size
                (filter_urls cfg st4.visited_urls st4.base_url st4.base_domain page.links))
              st4
        let node := MenuNode.mk url page.title ex.2.2 current_level parent_url
        (if isRoot then { ex.1 with menu_tree := some node } else ex.1,
         Except.ok ((url, page.text) :: ex.2.1, some node))

/-- `WebScraper.scrape_site`: delegate to `scrape_page` at the root with
no parent; a root failure is re-raised to the caller. -/
def scrape_site (env : String → Option Page) (cfg : ScraperConfig) (url : String)
    (max_depth : Nat) (st : CrawlState) :
    CrawlState × Except String (List (String × String)) :=
  match scrape_page env cfg max_depth url none st with
  | (st', Except.ok (result, _)) => (st', Except.ok result)
  | (st', Except.error e) => (st', Except.error e)

/-! ## C1: dedup — each URL fetched and recorded at most once -/

/-- Every fetch so far was of a distinct URL already claimed in
`visited_urls` (fetches only happen after the test-and-insert). -/
def DedupInv (st : CrawlState) : Prop :=
  st.fetchLog.Nodup ∧ ∀ u ∈ st.fetchLog, u ∈ st.visited_urls

/-- The visit-step contract used for the per-link fan-out: the dedup
invariant is preserved, the visited set only grows, and a successful
visit contributes distinct content keys that are freshly-visited URLs. -/
def VisitStep
    (f : String → CrawlState → CrawlState × Except String (List (String × String) × Option MenuNode)) :
    Prop :=
  ∀ url st, DedupInv st →
    DedupInv (f url st).1 ∧
    (∀ u ∈ st.visited_urls, u ∈ (f url st).1.visited_urls) ∧
    (∀ m n, (f url st).2 = Except.ok (m, n) →
      (m.map Prod.fst).Nodup ∧
      ∀ k ∈ m.map Prod.fst, k ∈ (f url st).1.visited_urls ∧ k ∉ st.visited_urls)

/-! ## C2: depth bound and level structure of the menu tree -/

mutual
/-- All nodes of a menu (sub)tree, the node itself included. -/
def nodesOf : MenuNode → List MenuNode
  | .mk u t cs l p => .mk u t cs l p :: nodesOfList cs

/-- All nodes of a forest of menu trees. -/
def nodesOfList : List MenuNode → List MenuNode
  | [] => []
  | n :: rest => nodesOf n ++ nodesOfList rest
end

mutual
/-- Every child in the subtree sits exactly one level below its parent. -/
def childLevelsOk : MenuNode → Bool
  | .mk _ _ cs l _ => childLevelsOkList l cs

/-- `childLevelsOk` for the children of a node at level `l`. -/
def childLevelsOkList : Nat → List MenuNode → Bool
  | _, [] => true
  | l, n :: rest => (n.level == l + 1) && childLevelsOk n && childLevelsOkList l rest
end

/-- A two-page environment used to instantiate the crawl theorems: the
root links to one fetchable page and one failing page. -/
def crawlEnv : String → Option Page := fun u =>
  if u = "https://ex.com/docs" then
    some { title := "Root", text := "root text",
           links := ["https://ex.com/docs/a", "https://ex.com/docs/b"] }
  else if u = "https://ex.com/docs/a" then
    some { title := "A", text := "a text", links := ["https://ex.com/docs"] }
  else none

/-- Configuration for the concrete crawls (no excluded paths). -/
def crawlCfg : ScraperConfig := { excluded_paths := [] }

/-- The menu tree produced by the concrete crawl at depth 1. -/
def rootNode : MenuNode :=
  MenuNode.mk "https://ex.com/docs" "Root"
    [MenuNode.mk "https://ex.com/docs/a" "A" [] 1 (some "https://ex.com/docs")] 0 none

/-! The theorems: the spec claims, their witnesses, and the supporting lemmas. -/

example : urlparse "https://d.example/docs/a" =
    { scheme := "https", netloc := "d.example", path := "/docs/a", query := "", fragment := "" } := by
  rfl

example : is_valid_url "https://ex.com/docs" = true := by rfl

example : is_valid_url "not a url" = false := by rfl

example : is_same_domain (some "d.example") "https://other.example/docs/a" = false := by rfl

example :
    filter_urls { excluded_paths := ["/archive/"] } []
      (some "https://d.example/docs") (some "d.example")
      ["https://d.example/docs/a", "https://d.example/docs/archive/x",
       "https://other.example/docs/a"] = ["https://d.example/docs/a"] := by
  rfl

theorem alookup_append_none {c : List (String × Page)} {x u : String} {p : Page}
    (h : alookup x c = none) (hne : x ≠ u) : alookup x (c ++ [(u, p)]) = none := by
  induction c with
  | nil =>
    simp only [List.nil_append, alookup]
    rw [if_neg (fun hh : u = x => hne hh.symm)]
  | cons e rest ih =>
    obtain ⟨k, v⟩ := e
    simp only [List.cons_append, alookup] at h ⊢
    by_cases hk : k = x
    · rw [if_pos hk] at h; exact absurd h (by simp)
    · rw [if_neg hk] at h ⊢; exact ih h

theorem alookup_tail_none {c : List (String × Page)} {x : String}
    (h : alookup x c = none) : alookup x c.tail = none := by
  cases c with
  | nil => simpa using h
  | cons e rest =>
    obtain ⟨k, v⟩ := e
    simp only [alookup] at h
    by_cases hk : k = x
    · rw [if_pos hk] at h; exact absurd h (by simp)
    · rw [if_neg hk] at h; simpa using h

theorem alookup_cacheStore_none {cap : Nat} {c : List (String × Page)} {x u : String} {p : Page}
    (h : alookup x c = none) (hne : x ≠ u) : alookup x (cacheStore cap c u p) = none := by
  simp only [cacheStore]
  split
  · exact alookup_tail_none (alookup_append_none h hne)
  · exact alookup_append_none h hne

theorem tail_append_cons {α : Type} (A : List α) (x : α) (B : List α) :
    (A ++ [x]).tail ++ B = (A ++ x :: B).tail := by
  cases A <;> simp

theorem runRequests_cache (env : String → Option Page) (cap : Nat) :
    ∀ (us : List String) (st : CrawlState),
      (runRequests env cap st us).response_cache = cacheRun env cap st.response_cache us := by
  intro us
  induction us with
  | nil => intro st; rfl
  | cons u rest ih =>
    intro st
    have hstep : runRequests env cap st (u :: rest) =
        runRequests env cap (get_cached_or_request env cap st u).1 rest := by
      simp [runRequests]
    rw [hstep, ih]
    unfold get_cached_or_request
    cases h : alookup u st.response_cache with
    | some p => simp [cacheRun, h]
    | none =>
      cases he : env u with
      | none => simp [cacheRun, h, he]
      | some p => simp [cacheRun, h, he]

/-- FIFO shape of a run of cache misses: starting below capacity, feeding
fresh pairwise-distinct URLs through the cache leaves it holding the
suffix of the insertion sequence that fits within the capacity. -/
theorem cacheRun_fifo (env : String → Option Page) (cap : Nat) :
    ∀ (us : List String) (cache : List (String × Page)),
      us.Nodup → (∀ u ∈ us, alookup u cache = none) →
      (∀ u ∈ us, (env u).isSome) → cache.length ≤ cap →
      cacheRun env cap cache us =
        (cache ++ us.map (fun u => (u, (env u).getD Page.empty))).drop
          (cache.length + us.length - cap) := by
  intro us
  induction us with
  | nil =>
    intro cache _ _ _ hle
    have h0 : cache.length - cap = 0 := by omega
    simp [cacheRun, h0]
  | cons u rest ih =>
    intro cache hnd hfresh henv hle
    obtain ⟨p, hp⟩ := Option.isSome_iff_exists.mp (henv u (by simp))
    have hl : alookup u cache = none := hfresh u (by simp)
    have hstep : cacheRun env cap cache (u :: rest) =
        cacheRun env cap (cacheStore cap cache u p) rest := by
      simp [cacheRun, hl, hp]
    have hfresh' : ∀ v ∈ rest, alookup v (cacheStore cap cache u p) = none := by
      intro v hv
      exact alookup_cacheStore_none (hfresh v (by simp [hv]))
        (by rintro rfl; exact (List.nodup_cons.mp hnd).1 hv)
    have henv' : ∀ v ∈ rest, (env v).isSome := fun v hv => henv v (by simp [hv])
    rw [hstep]
    by_cases hcap : cap < cache.length + 1
    · -- the cache was exactly full: the oldest entry is evicted
      have hlen : cache.length = cap := by omega
      have hcapgt : cap < (cache ++ [(u, p)]).length := by simp [hlen]
      have hc : cacheStore cap cache u p = (cache ++ [(u, p)]).tail := by
        simp only [cacheStore]
        rw [if_pos hcapgt]
      have hlen' : ((cache ++ [(u, p)]).tail).length = cap := by simp [hlen]
      have hrec := ih (cacheStore cap cache u p) (List.nodup_cons.mp hnd).2
        hfresh' henv' (by rw [hc, hlen'])
      rw [hrec, hc, hlen']
      have harith : cap + rest.length - cap = rest.length := by omega
      have harith2 : cache.length + (u :: rest).length - cap = rest.length + 1 := by
        simp [hlen]
      rw [harith, harith2]
      simp only [List.map_cons, hp, Option.getD_some]
      rw [tail_append_cons cache (u, p) (rest.map (fun v => (v, (env v).getD Page.empty)))]
      rw [← List.drop_one, List.drop_drop]
      congr 1
      omega
    · -- below capacity: plain append
      have hcaple : ¬ cap < (cache ++ [(u, p)]).length := by simp; omega
      have hc : cacheStore cap cache u p = cache ++ [(u, p)] := by
        simp only [cacheStore]
        rw [if_neg hcaple]
      have hrec := ih (cacheStore cap cache u p) (List.nodup_cons.mp hnd).2
        hfresh' henv' (by rw [hc]; simp; omega)
      rw [hrec, hc]
      simp only [List.length_append, List.length_cons, List.length_nil, List.map_cons,
        hp, Option.getD_some]
      rw [List.append_assoc]
      simp only [List.singleton_append]
      congr 1
      omega

/-- C5: inserting `capacity + 1` distinct URLs through cache misses of
`_get_cached_or_request` leaves exactly `capacity` entries, the evicted
entry being the oldest-inserted (the first URL): the surviving keys are
exactly the insertion sequence minus its first element, in order. -/
theorem c5_cache_bound (cap : Nat) (us : List String) (env : String → Option Page)
    (h1 : us.Nodup) (h2 : us.length = cap + 1) (h3 : ∀ u ∈ us, (env u).isSome) :
    (runRequests env cap initState us).response_cache.length = cap ∧
    (runRequests env cap initState us).response_cache.map Prod.fst = us.tail := by
  have hrun : (runRequests env cap initState us).response_cache =
      cacheRun env cap [] us := runRequests_cache env cap us initState
  have hfifo := cacheRun_fifo env cap us [] h1 (by intro u _; rfl) h3 (by simp)
  have hcache : (runRequests env cap initState us).response_cache =
      (us.map (fun u => (u, (env u).getD Page.empty))).drop 1 := by
    rw [hrun, hfifo]
    simp [h2]
  constructor
  · rw [hcache]; simp [h2]
  · rw [hcache, List.map_drop, List.map_map]
    simp [List.drop_one, Function.comp_def]

/-- Concrete instantiation of `c5_cache_bound`: capacity 2, three
distinct URLs; the oldest entry is evicted and the last two remain. -/
theorem c5_cache_bound_witness :
    (["u1", "u2", "u3"] : List String).Nodup ∧
    (["u1", "u2", "u3"] : List String).length = 2 + 1 ∧
    (∀ u ∈ ["u1", "u2", "u3"], ((fun _ => some Page.empty) u : Option Page).isSome) ∧
    ((runRequests (fun _ => some Page.empty) 2 initState ["u1", "u2", "u3"]).response_cache.length = 2 ∧
     (runRequests (fun _ => some Page.empty) 2 initState ["u1", "u2", "u3"]).response_cache.map Prod.fst
       = ["u2", "u3"]) :=
  ⟨by decide, rfl, by decide,
    c5_cache_bound 2 ["u1", "u2", "u3"] (fun _ => some Page.empty) (by decide) rfl (by decide)⟩

/-- C10: a cache hit in `_get_cached_or_request` returns the cached
response and leaves the whole scraper state — in particular the cache
contents and their order — unchanged; consequently a hit contributes
nothing to any request sequence, so eviction order is pure insertion
order. -/
theorem c10_cache_hit_frame (env : String → Option Page) (cap : Nat) (st : CrawlState)
    (url : String) (p : Page) (h : alookup url st.response_cache = some p) :
    get_cached_or_request env cap st url = (st, some p) ∧
    ∀ urls : List String, runRequests env cap st (url :: urls) = runRequests env cap st urls := by
  have h1 : get_cached_or_request env cap st url = (st, some p) := by
    unfold get_cached_or_request
    rw [h]
  exact ⟨h1, fun urls => by simp [runRequests, h1]⟩

/-- Concrete instantiation of `c10_cache_hit_frame`. -/
theorem c10_cache_hit_frame_witness :
    alookup "u1" [("u1", Page.empty)] = some Page.empty ∧
    get_cached_or_request (fun _ => none) 2
      { initState with response_cache := [("u1", Page.empty)] } "u1" =
      ({ initState with response_cache := [("u1", Page.empty)] }, some Page.empty) :=
  ⟨rfl, (c10_cache_hit_frame (fun _ => none) 2
    { initState with response_cache := [("u1", Page.empty)] } "u1" Page.empty rfl).1⟩

/-! ## Strategy registry resolution (C8) -/

theorem get_adapter_first_match (url : String) :
    ∀ (regs₁ : List (String × (String → Bool))) (name : String) (ch : String → Bool)
      (regs₂ : List (String × (String → Bool))),
      (∀ p ∈ regs₁, p.2 url = false) → ch url = true →
      get_adapter_for_url_from (regs₁ ++ (name, ch) :: regs₂) url = name := by
  intro regs₁
  induction regs₁ with
  | nil =>
    intro name ch regs₂ _ hch
    simp [get_adapter_for_url_from, hch]
  | cons e rest ih =>
    intro name ch regs₂ hmiss hch
    obtain ⟨n, c⟩ := e
    have hc : c url = false := hmiss (n, c) (by simp)
    simp only [List.cons_append, get_adapter_for_url_from, hc]
    simp only [Bool.false_eq_true, if_false]
    exact ih name ch regs₂ (fun p hp => hmiss p (by simp [hp])) hch

theorem get_adapter_no_match (url : String) :
    ∀ regs : List (String × (String → Bool)),
      (∀ p ∈ regs, p.2 url = false) → get_adapter_for_url_from regs url = "default" := by
  intro regs
  induction regs with
  | nil => intro; rfl
  | cons e rest ih =>
    intro hmiss
    obtain ⟨n, c⟩ := e
    have hc : c url = false := hmiss (n, c) (by simp)
    simp only [get_adapter_for_url_from, hc]
    simp only [Bool.false_eq_true, if_false]
    exact ih (fun p hp => hmiss p (by simp [hp]))

/-- C8: `AdapterRegistry.get_adapter_for_url` returns the first registered
adapter (in registration order) whose `can_handle` accepts the URL, and
the default adapter when none matches; and with the registry as built by
the package, the adapter used by `_extract_text` during a page visit
(resolved from `base_url`) is the same adapter that resolving from the
page's own URL/domain yields. -/
theorem c8_registry_resolution :
    (∀ (regs₁ : List (String × (String → Bool))) (name : String) (ch : String → Bool)
        (regs₂ : List (String × (String → Bool))) (url : String),
        (∀ p ∈ regs₁, p.2 url = false) → ch url = true →
        get_adapter_for_url_from (regs₁ ++ (name, ch) :: regs₂) url = name) ∧
    (∀ (regs : List (String × (String → Bool))) (url : String),
        (∀ p ∈ regs, p.2 url = false) →
        get_adapter_for_url_from regs url = "default") ∧
    (∀ base_url page_url : String,
        get_adapter_for_url base_url = get_adapter_for_url page_url) :=
  ⟨fun regs₁ name ch regs₂ url => get_adapter_first_match url regs₁ name ch regs₂,
   fun regs url => get_adapter_no_match url regs,
   fun _ _ => rfl⟩

/-- Concrete instantiation of `c8_registry_resolution`: with the
snowflake adapter registered ahead of a catch-all entry, a non-snowflake
URL falls through to the catch-all. -/
theorem c8_registry_resolution_witness :
    (∀ p ∈ [("snowflake", snowflake_can_handle)], p.2 "https://ex.com/docs" = false) ∧
    default_can_handle "https://ex.com/docs" = true ∧
    get_adapter_for_url_from
        ([("snowflake", snowflake_can_handle)] ++ ("catchall", default_can_handle) :: [])
        "https://ex.com/docs" = "catchall" :=
  ⟨by decide, rfl,
    c8_registry_resolution.1 [("snowflake", snowflake_can_handle)] "catchall"
      default_can_handle [] "https://ex.com/docs" (by decide) rfl⟩

/-! ## Filter pipeline (C4) -/

theorem filter_stage_collapse {α : Type} (p q : α → Bool) (l : List α) :
    (l.filter p).filter q = l.filter (fun a => p a && q a) := by
  induction l with
  | nil => rfl
  | cons x xs ih =>
    by_cases hp : p x
    · by_cases hq : q x <;> simp [List.filter_cons, hp, hq, ih]
    · simp [List.filter_cons, hp, ih]

/-- C4: `_filter_urls` is exactly the pipeline stated by the spec, in
order: (1) drop visited URLs, (2) drop other-host URLs, (3) drop URLs
containing an excluded-path substring, (4) drop URLs with a query or
fragment, (5) drop URLs not prefixed by `base_url`, (6) drop scheme-pseudo
links, (7) the resolved adapter's `filter_urls`, (8) stable sort by
descending path-segment count; and on the spec's concrete example only
`https://d.example/docs/a` survives. -/
theorem c4_filter_pipeline :
    (∀ (cfg : ScraperConfig) (visited : List String) (bu bd : Option String)
        (urls : List String),
      filter_urls cfg visited bu bd urls =
        sortByKeyDesc pathSegments
          (adapter_filter_urls (get_adapter_for_url (bu.getD ""))
            ((((((urls.filter
                  (fun u => !(visited.contains u))).filter
                  (fun u => is_same_domain bd u)).filter
                  (fun u => !(cfg.excluded_paths.any fun excluded => strContains u excluded))).filter
                  (fun u => (urlparse u).fragment = "" && (urlparse u).query = "")).filter
                  (fun u => match bu with
                            | some b => if b = "" then true else strStartsWith u b
                            | none => true)).filter
                  (fun u => !(["javascript:", "mailto:", "tel:", "#", "?"].any fun x =>
                      strContains u x)))
            (bu.getD ""))) ∧
    filter_urls { excluded_paths := ["/archive/"] } []
        (some "https://d.example/docs") (some "d.example")
        ["https://d.example/docs/a", "https://d.example/docs/archive/x",
         "https://other.example/docs/a"]
      = ["https://d.example/docs/a"] := by
  constructor
  · intro cfg visited bu bd urls
    unfold filter_urls
    simp only [filter_stage_collapse]
    refine congrArg (sortByKeyDesc pathSegments) ?_
    refine congrArg
      (fun l => adapter_filter_urls (get_adapter_for_url (bu.getD "")) l (bu.getD "")) ?_
    refine List.filter_congr ?_
    intro u _
    cases bu <;> simp only [filter_urls_basic_keep, Bool.and_assoc]
  · rfl

example : urljoin "https://ex.com/docs/a" "/docs/b" = "https://ex.com/docs/b" := by rfl

example : urljoin "https://ex.com/docs/a" "b" = "https://ex.com/docs/b" := by rfl

example : urljoin "https://ex.com/docs/a/" "../c" = "https://ex.com/docs/c" := by rfl

example : urljoin "https://ex.com/docs/a" "https://other.com/x" = "https://other.com/x" := by rfl

theorem setAdd_nodup {acc : List String} (x : String) (h : acc.Nodup) :
    (setAdd acc x).Nodup := by
  unfold setAdd
  split
  · exact h
  · next hx =>
    have hxm : x ∉ acc := fun hmem => hx (List.elem_eq_true_of_mem hmem)
    simp [List.nodup_append, h, hxm]

theorem mem_setAdd {acc : List String} {x u : String} :
    u ∈ setAdd acc x ↔ u ∈ acc ∨ u = x := by
  unfold setAdd
  split
  · next hx =>
    constructor
    · exact Or.inl
    · rintro (h | rfl)
      · exact h
      · exact List.mem_of_elem_eq_true hx
  · simp

theorem foldl_setAdd_nodup : ∀ (l acc : List String), acc.Nodup → (l.foldl setAdd acc).Nodup := by
  intro l
  induction l with
  | nil => intro acc h; exact h
  | cons x xs ih => intro acc h; exact ih (setAdd acc x) (setAdd_nodup x h)

theorem mem_foldl_setAdd : ∀ (l acc : List String) (u : String),
    u ∈ l.foldl setAdd acc ↔ u ∈ acc ∨ u ∈ l := by
  intro l
  induction l with
  | nil => simp
  | cons x xs ih =>
    intro acc u
    rw [List.foldl_cons, ih, mem_setAdd]
    simp [or_assoc]

theorem foldl_setAdd_fresh : ∀ (l acc : List String), l.Nodup → (∀ x ∈ l, x ∉ acc) →
    l.foldl setAdd acc = acc ++ l := by
  intro l
  induction l with
  | nil => simp
  | cons x xs ih =>
    intro acc hnd hfresh
    have hx : setAdd acc x = acc ++ [x] := by
      unfold setAdd
      rw [if_neg (fun hc => hfresh x (by simp) (List.mem_of_elem_eq_true hc))]
    rw [List.foldl_cons, hx, ih (acc ++ [x]) (List.nodup_cons.mp hnd).2]
    · simp
    · intro y hy
      simp only [List.mem_append, List.mem_singleton]
      rintro (hacc | rfl)
      · exact hfresh y (by simp [hy]) hacc
      · exact (List.nodup_cons.mp hnd).1 hy

theorem find_menu_links_adapter_nodup (page : SelPage) (current_url : String)
    (sels : List String) : (find_menu_links_adapter page current_url sels).Nodup :=
  foldl_setAdd_nodup _ [] (by simp)

/-- C9: `_find_menu_links` evaluates the priority selectors first; the
remaining (non-priority) menu selectors contribute if and only if the
priority selectors yielded fewer than 5 links; the result is the
duplicate-free union of the links found. -/
theorem c9_menu_links (cfg : ScraperConfig) (page : SelPage) (current_url : String) :
    (find_menu_links cfg page current_url).Nodup ∧
    ∀ u, u ∈ find_menu_links cfg page current_url ↔
      (u ∈ find_menu_links_adapter page current_url cfg.priority_selectors ∨
       ((find_menu_links_adapter page current_url cfg.priority_selectors).length < 5 ∧
        u ∈ find_menu_links_adapter page current_url
          (cfg.menu_selectors.filter fun s => !(cfg.priority_selectors.contains s)))) := by
  have hpn : (find_menu_links_adapter page current_url cfg.priority_selectors).Nodup :=
    find_menu_links_adapter_nodup page current_url cfg.priority_selectors
  have hmenu : (find_menu_links_adapter page current_url cfg.priority_selectors).foldl
      setAdd [] = find_menu_links_adapter page current_url cfg.priority_selectors := by
    rw [foldl_setAdd_fresh _ [] hpn (by simp)]
    simp
  simp only [find_menu_links]
  rw [hmenu]
  by_cases hlt : (find_menu_links_adapter page current_url cfg.priority_selectors).length < 5
  · rw [if_pos hlt]
    refine ⟨foldl_setAdd_nodup _ _ hpn, ?_⟩
    intro u
    rw [mem_foldl_setAdd]
    constructor
    · rintro (h | h)
      · exact Or.inl h
      · exact Or.inr ⟨hlt, h⟩
    · rintro (h | ⟨-, h⟩)
      · exact Or.inl h
      · exact Or.inr h
  · rw [if_neg hlt]
    refine ⟨hpn, ?_⟩
    intro u
    constructor
    · exact Or.inl
    · rintro (h | ⟨hl, -⟩)
      · exact h
      · exact absurd hl hlt

example :
    base_extract_content
      (.elem "[document]" [] none
        [.elem "html" [] none
          [.elem "body" [] none
            [.elem "h1" [] none [.text "Title"],
             .elem "p" [] none [.text "hello"]]]]) =
    some ("\n\nTitle\n=====\n" ++ "\n" ++ "hello") := by rfl

example :
    base_extract_content
      (.elem "[document]" [] none
        [.elem "html" [] none
          [.elem "body" [] none
            [.elem "p" [] none [.text "hello world"]]]]) =
    some "hello world" := by rfl

theorem noHeadingsList_childrenOf {h : Html} (hn : noHeadingsNode h = true) :
    noHeadingsList (childrenOf h) = true := by
  cases h with
  | text s => rfl
  | elem t c i cs =>
    simp only [noHeadingsNode, Bool.and_eq_true] at hn
    exact hn.2

mutual
theorem headingJobs_empty_node : ∀ (h : Html), noHeadingsNode h = true →
    headingJobsInside h = []
  | .text _, _ => rfl
  | .elem t c i cs, hn => by
    simp only [noHeadingsNode, Bool.and_eq_true] at hn
    simpa [headingJobsInside] using headingJobs_empty_list cs hn.2

theorem headingJobs_empty_list : ∀ (l : List Html), noHeadingsList l = true →
    headingJobsList l = []
  | [], _ => rfl
  | x :: rest, hn => by
    simp only [noHeadingsList, Bool.and_eq_true] at hn
    have hx : isHeading x = false := by
      cases x with
      | text s => rfl
      | elem t c i cs =>
        have h1 := hn.1
        simp only [noHeadingsNode, Bool.and_eq_true, Bool.not_eq_true'] at h1
        exact h1.1
    simp [headingJobsList, hx, headingJobs_empty_node x hn.1,
      headingJobs_empty_list rest hn.2]
end

/-- A heading-free main-content region contributes no content parts. -/
theorem contentParts_empty {mc : Html} (hn : noHeadingsNode mc = true) :
    contentParts mc = [] := by
  simp [contentParts, headingJobs_empty_node mc hn]

mutual
theorem removeTags_noHeadings_node : ∀ (tags : List String) (h : Html),
    noHeadingsNode h = true → noHeadingsNode (removeTagsNode tags h) = true
  | _, .text _, _ => rfl
  | tags, .elem t c i cs, hn => by
    simp only [noHeadingsNode, Bool.and_eq_true, isHeading, tagIs] at hn
    simp only [removeTagsNode, noHeadingsNode, Bool.and_eq_true, isHeading, tagIs]
    exact ⟨hn.1, removeTags_noHeadings_list tags cs hn.2⟩

theorem removeTags_noHeadings_list : ∀ (tags : List String) (l : List Html),
    noHeadingsList l = true → noHeadingsList (removeTagsList tags l) = true
  | _, [], _ => rfl
  | tags, x :: rest, hn => by
    simp only [noHeadingsList, Bool.and_eq_true] at hn
    by_cases hr : isRemovedTag tags x = true
    · simpa [removeTagsList, hr] using removeTags_noHeadings_list tags rest hn.2
    · have h1 := removeTags_noHeadings_node tags x hn.1
      have h2 := removeTags_noHeadings_list tags rest hn.2
      simp [removeTagsList, hr, noHeadingsList, h1, h2]
end

theorem removeTags_noHeadings {tags : List String} {h : Html}
    (hn : noHeadingsNode h = true) : noHeadingsNode (removeTags tags h) = true := by
  cases h with
  | text s => exact hn
  | elem t c i cs =>
    simp only [noHeadingsNode, Bool.and_eq_true, isHeading, tagIs] at hn
    simp only [removeTags, noHeadingsNode, Bool.and_eq_true, isHeading, tagIs]
    exact ⟨hn.1, removeTags_noHeadings_list tags cs hn.2⟩

mutual
theorem selectFirst_noHeadings_list : ∀ (sel : String) (l : List Html) (m : Html),
    noHeadingsList l = true → selectFirstList sel l = some m → noHeadingsNode m = true
  | sel, [], m, _, h => by simp [selectFirstList] at h
  | sel, x :: rest, m, hn, h => by
    simp only [noHeadingsList, Bool.and_eq_true] at hn
    simp only [selectFirstList] at h
    cases hx : selectFirstNode sel x with
    | some r =>
      rw [hx] at h
      cases h
      exact selectFirst_noHeadings_node sel x m hn.1 hx
    | none =>
      rw [hx] at h
      exact selectFirst_noHeadings_list sel rest m hn.2 h

theorem selectFirst_noHeadings_node : ∀ (sel : String) (x : Html) (m : Html),
    noHeadingsNode x = true → selectFirstNode sel x = some m → noHeadingsNode m = true
  | sel, .text s, m, _, h => by simp [selectFirstNode] at h
  | sel, .elem t c i cs, m, hn, h => by
    simp only [selectFirstNode] at h
    split at h
    · cases h; exact hn
    · have hcs : noHeadingsList cs = true := by
        simp only [noHeadingsNode, Bool.and_eq_true] at hn
        exact hn.2
      exact selectFirst_noHeadings_list sel cs m hcs h
end

theorem firstSelectorMatch_noHeadings : ∀ (sels : List String) (soup m : Html),
    noHeadingsNode soup = true → firstSelectorMatch soup sels = some m →
    noHeadingsNode m = true := by
  intro sels
  induction sels with
  | nil => intro soup m _ h; simp [firstSelectorMatch] at h
  | cons sel rest ih =>
    intro soup m hn h
    simp only [firstSelectorMatch] at h
    cases hx : soup_select_one soup sel with
    | some r =>
      rw [hx] at h
      cases h
      exact selectFirst_noHeadings_list sel (childrenOf soup) m
        (noHeadingsList_childrenOf hn) hx
    | none =>
      rw [hx] at h
      exact ih soup m hn h

theorem base_main_content_noHeadings {soup m : Html}
    (hn : noHeadingsNode soup = true) (h : base_main_content soup = some m) :
    noHeadingsNode m = true := by
  unfold base_main_content at h
  cases hx : firstSelectorMatch soup baseSelectors with
  | some r =>
    rw [hx] at h
    cases h
    exact firstSelectorMatch_noHeadings baseSelectors soup m hn hx
  | none =>
    rw [hx] at h
    exact selectFirst_noHeadings_list "body" (childrenOf soup) m
      (noHeadingsList_childrenOf hn) h

theorem snowflake_main_content_noHeadings {soup m : Html}
    (hn : noHeadingsNode soup = true) (h : snowflake_main_content soup = some m) :
    noHeadingsNode m = true := by
  unfold snowflake_main_content at h
  cases hx : firstSelectorMatch soup snowflakeSelectors with
  | some r =>
    rw [hx] at h
    cases h
    exact firstSelectorMatch_noHeadings snowflakeSelectors soup m hn hx
  | none =>
    rw [hx] at h
    exact selectFirst_noHeadings_list "body" (childrenOf soup) m
      (noHeadingsList_childrenOf hn) h

/-! ## Non-emptiness of the cleaned fallback text -/

theorem mem_dropWhile_of_not {p : Char → Bool} {c : Char} :
    ∀ {l : List Char}, c ∈ l → p c = false → c ∈ l.dropWhile p := by
  intro l
  induction l with
  | nil => intro h _; cases h
  | cons x xs ih =>
    intro hmem hp
    by_cases hx : p x = true
    · rw [List.dropWhile_cons_of_pos hx]
      rcases List.mem_cons.mp hmem with rfl | hmem'
      · rw [hp] at hx; cases hx
      · exact ih hmem' hp
    · rw [List.dropWhile_cons_of_neg hx]
      exact hmem

theorem mem_pyStripChars {c : Char} {l : List Char}
    (hmem : c ∈ l) (hsp : pyIsSpace c = false) : c ∈ pyStripChars l := by
  unfold pyStripChars
  rw [List.mem_reverse]
  apply mem_dropWhile_of_not _ hsp
  rw [List.mem_reverse]
  exact mem_dropWhile_of_not hmem hsp

theorem mem_pySplitlinesGo (c : Char) :
    ∀ (cs cur : List Char), c ∈ cur ∨ (c ∈ cs ∧ pyIsSpace c = false) →
      ∃ line ∈ pySplitlinesGo cs cur, c ∈ line := by
  intro cs cur
  induction cs, cur using pySplitlinesGo.induct with
  | case1 cur hcur =>
    rintro (h | ⟨h, _⟩)
    · rw [List.isEmpty_iff.mp hcur] at h; cases h
    · cases h
  | case2 cur hcur =>
    rintro (h | ⟨h, _⟩)
    · refine ⟨cur.reverse, ?_, by simpa using h⟩
      rw [pySplitlinesGo.eq_1, if_neg hcur]
      simp
    · cases h
  | case3 rest cur ih =>
    rintro (h | ⟨hmem, hsp⟩)
    · exact ⟨cur.reverse, by rw [pySplitlinesGo.eq_2]; simp, by simpa using h⟩
    · have hrest : c ∈ rest := by
        rcases List.mem_cons.mp hmem with rfl | hmem'
        · simp [pyIsSpace] at hsp
        · rcases List.mem_cons.mp hmem' with rfl | hmem''
          · simp [pyIsSpace] at hsp
          · exact hmem''
      obtain ⟨line, hl, hc⟩ := ih (Or.inr ⟨hrest, hsp⟩)
      exact ⟨line, by rw [pySplitlinesGo.eq_2]; exact List.mem_cons_of_mem _ hl, hc⟩
  | case4 c' rest cur hexc hcond ih =>
    have hunf : pySplitlinesGo (c' :: rest) cur = cur.reverse :: pySplitlinesGo rest [] := by
      rw [pySplitlinesGo.eq_3 cur c' rest hexc, if_pos hcond]
    rintro (h | ⟨hmem, hsp⟩)
    · exact ⟨cur.reverse, by rw [hunf]; simp, by simpa using h⟩
    · have hrest : c ∈ rest := by
        rcases List.mem_cons.mp hmem with rfl | hmem'
        · exfalso
          simp only [Bool.or_eq_true, decide_eq_true_eq] at hcond
          rcases hcond with ((h1 | h1) | h1) | h1 <;> simp [h1, pyIsSpace] at hsp
        · exact hmem'
      obtain ⟨line, hl, hc⟩ := ih (Or.inr ⟨hrest, hsp⟩)
      exact ⟨line, by rw [hunf]; exact List.mem_cons_of_mem _ hl, hc⟩
  | case5 c' rest cur hexc hcond ih =>
    have hunf : pySplitlinesGo (c' :: rest) cur = pySplitlinesGo rest (c' :: cur) := by
      rw [pySplitlinesGo.eq_3 cur c' rest hexc, if_neg hcond]
    rintro (h | ⟨hmem, hsp⟩)
    · obtain ⟨line, hl, hc⟩ := ih (Or.inl (List.mem_cons_of_mem _ h))
      exact ⟨line, by rw [hunf]; exact hl, hc⟩
    · rcases List.mem_cons.mp hmem with rfl | hmem'
      · obtain ⟨line, hl, hc⟩ := ih (Or.inl (List.mem_cons_self _ _))
        exact ⟨line, by rw [hunf]; exact hl, hc⟩
      · obtain ⟨line, hl, hc⟩ := ih (Or.inr ⟨hmem', hsp⟩)
        exact ⟨line, by rw [hunf]; exact hl, hc⟩

theorem splitTwoSpace_ne_nil : ∀ (l : List Char), splitTwoSpace l ≠ [] := by
  intro l
  induction l using splitTwoSpace.induct with
  | case1 => simp [splitTwoSpace]
  | case2 rest ih => simp [splitTwoSpace]
  | case3 x xs hexc hnil ih =>
    rw [splitTwoSpace.eq_3 x xs hexc, hnil]
    simp
  | case4 x xs hexc h0 t0 hs ih =>
    rw [splitTwoSpace.eq_3 x xs hexc, hs]
    simp

theorem mem_splitTwoSpace (c : Char) : ∀ (l : List Char), c ∈ l → c ≠ ' ' →
    ∃ piece ∈ splitTwoSpace l, c ∈ piece := by
  intro l
  induction l using splitTwoSpace.induct with
  | case1 => intro h _; cases h
  | case2 rest ih =>
    intro hmem hne
    have hrest : c ∈ rest := by
      rcases List.mem_cons.mp hmem with rfl | h'
      · exact absurd rfl hne
      · rcases List.mem_cons.mp h' with rfl | h''
        · exact absurd rfl hne
        · exact h''
    obtain ⟨p, hp, hc⟩ := ih hrest hne
    exact ⟨p, by rw [splitTwoSpace.eq_2]; exact List.mem_cons_of_mem _ hp, hc⟩
  | case3 x xs hexc hnil ih =>
    intro _ _
    exact absurd hnil (splitTwoSpace_ne_nil xs)
  | case4 x xs hexc h0 t0 hs ih =>
    intro hmem hne
    have hunf : splitTwoSpace (x :: xs) = (x :: h0) :: t0 := by
      rw [splitTwoSpace.eq_3 x xs hexc, hs]
    rcases List.mem_cons.mp hmem with rfl | hmem'
    · exact ⟨c :: h0, by rw [hunf]; simp, by simp⟩
    · obtain ⟨p, hp, hc⟩ := ih hmem' hne
      rw [hs] at hp
      rcases List.mem_cons.mp hp with rfl | hp'
      · exact ⟨x :: p, by rw [hunf]; simp, List.mem_cons_of_mem _ hc⟩
      · exact ⟨p, by rw [hunf]; exact List.mem_cons_of_mem _ hp', hc⟩

theorem intercalate_cons_head (sep x : List Char) (xs : List (List Char)) :
    ∃ t, List.intercalate sep (x :: xs) = x ++ t := by
  cases xs with
  | nil => exact ⟨[], by simp [List.intercalate]⟩
  | cons y ys =>
    refine ⟨sep ++ List.intercalate sep (y :: ys), ?_⟩
    simp [List.intercalate, List.intersperse]

/-- A string containing any non-whitespace character cleans to a
non-empty string. -/
theorem cleanText_ne_empty {s : String} (h : ∃ c ∈ s.toList, pyIsSpace c = false) :
    cleanText s ≠ "" := by
  obtain ⟨c, hmem, hsp⟩ := h
  obtain ⟨line, hline, hcline⟩ := mem_pySplitlinesGo c s.toList [] (Or.inr ⟨hmem, hsp⟩)
  have hstr : c ∈ pyStripChars line := mem_pyStripChars hcline hsp
  have hlines : pyStripChars line ∈ (pySplitlines s.toList).map pyStripChars :=
    List.mem_map_of_mem _ hline
  have hcne : c ≠ ' ' := fun hc => by simp [hc, pyIsSpace] at hsp
  obtain ⟨piece, hpiece, hcpiece⟩ := mem_splitTwoSpace c (pyStripChars line) hstr hcne
  have hchunk : c ∈ pyStripChars piece := mem_pyStripChars hcpiece hsp
  have hchunkmem : pyStripChars piece ∈
      ((pySplitlines s.toList).map pyStripChars).flatMap
        (fun l => (splitTwoSpace l).map pyStripChars) := by
    rw [List.mem_flatMap]
    exact ⟨pyStripChars line, hlines, List.mem_map_of_mem _ hpiece⟩
  have hne : (pyStripChars piece).isEmpty = false := by
    cases hp : pyStripChars piece with
    | nil => rw [hp] at hchunk; cases hchunk
    | cons a b => rfl
  have hfilter : pyStripChars piece ∈
      (((pySplitlines s.toList).map pyStripChars).flatMap
        (fun l => (splitTwoSpace l).map pyStripChars)).filter (fun ch => !ch.isEmpty) :=
    List.mem_filter.mpr ⟨hchunkmem, by simp [hne]⟩
  simp only [cleanText, cleanTextChars]
  cases hcase : (((pySplitlines s.toList).map pyStripChars).flatMap
      (fun l => (splitTwoSpace l).map pyStripChars)).filter (fun ch => !ch.isEmpty) with
  | nil => rw [hcase] at hfilter; cases hfilter
  | cons x xs =>
    have hx : x ∈ (((pySplitlines s.toList).map pyStripChars).flatMap
        (fun l => (splitTwoSpace l).map pyStripChars)).filter (fun ch => !ch.isEmpty) := by
      rw [hcase]; simp
    have hxne : x ≠ [] := by
      have hprop := (List.mem_filter.mp hx).2
      intro hnil
      simp [hnil] at hprop
    obtain ⟨t, ht⟩ := intercalate_cons_head ['\n'] x xs
    rw [ht]
    intro heq
    have hdata : x ++ t = [] := congrArg String.data heq
    rcases List.append_eq_nil.mp hdata with ⟨hx0, -⟩
    exact hxne hx0

/-! ## C6: structured-strategy fallback -/

/-- C6: whenever the Snowflake heading walk produces no content parts,
`extract_content` falls back to the Default behaviour applied to the
stripped soup; in particular, on a document with zero heading elements
the result is the Default's whitespace-cleaned text of its main region,
which is non-empty whenever that region has any non-whitespace textual
content — a structured strategy never silently returns empty text. -/
theorem c6_snowflake_fallback (soup mcS mcB : Html)
    (hnh : noHeadingsNode soup = true)
    (hms : snowflake_main_content
      (removeTags ["script", "style", "footer", "iframe"] soup) = some mcS)
    (hmb : base_main_content
      (removeTags ["script", "style", "nav", "footer", "iframe"]
        (removeTags ["script", "style", "footer", "iframe"] soup)) = some mcB)
    (htext : ∃ ch ∈ (getTextH mcB).toList, pyIsSpace ch = false) :
    (∀ (soup' mc' : Html),
        snowflake_main_content
          (removeTags ["script", "style", "footer", "iframe"] soup') = some mc' →
        contentParts mc' = [] →
        snowflake_extract_content soup' =
          base_extract_content (removeTags ["script", "style", "footer", "iframe"] soup')) ∧
    snowflake_extract_content soup =
      base_extract_content (removeTags ["script", "style", "footer", "iframe"] soup) ∧
    snowflake_extract_content soup = some (cleanText (getTextH mcB)) ∧
    cleanText (getTextH mcB) ≠ "" := by
  have hgen : ∀ (soup' mc' : Html),
      snowflake_main_content
        (removeTags ["script", "style", "footer", "iframe"] soup') = some mc' →
      contentParts mc' = [] →
      snowflake_extract_content soup' =
        base_extract_content (removeTags ["script", "style", "footer", "iframe"] soup') := by
    intro soup' mc' h1 h2
    simp only [snowflake_extract_content]
    rw [h1]
    simp [h2]
  have hstr1 : noHeadingsNode
      (removeTags ["script", "style", "footer", "iframe"] soup) = true :=
    removeTags_noHeadings hnh
  have hpartsS : contentParts mcS = [] :=
    contentParts_empty (snowflake_main_content_noHeadings hstr1 hms)
  have hfall := hgen soup mcS hms hpartsS
  have hstr2 : noHeadingsNode
      (removeTags ["script", "style", "nav", "footer", "iframe"]
        (removeTags ["script", "style", "footer", "iframe"] soup)) = true :=
    removeTags_noHeadings hstr1
  have hpartsB : contentParts mcB = [] :=
    contentParts_empty (base_main_content_noHeadings hstr2 hmb)
  have hbase : base_extract_content
      (removeTags ["script", "style", "footer", "iframe"] soup) =
      some (cleanText (getTextH mcB)) := by
    simp only [base_extract_content]
    rw [hmb]
    simp [hpartsB]
  exact ⟨hgen, hfall, hfall.trans hbase, cleanText_ne_empty htext⟩

/-- Concrete instantiation of `c6_snowflake_fallback`. -/
theorem c6_snowflake_fallback_witness :
    noHeadingsNode c6doc = true ∧
    snowflake_main_content
      (removeTags ["script", "style", "footer", "iframe"] c6doc) = some c6body ∧
    base_main_content
      (removeTags ["script", "style", "nav", "footer", "iframe"]
        (removeTags ["script", "style", "footer", "iframe"] c6doc)) = some c6body ∧
    (∃ ch ∈ (getTextH c6body).toList, pyIsSpace ch = false) ∧
    (snowflake_extract_content c6doc = some (cleanText (getTextH c6body)) ∧
     cleanText (getTextH c6body) ≠ "") :=
  ⟨rfl, rfl, rfl, by decide,
    (c6_snowflake_fallback c6doc c6body c6body rfl rfl rfl (by decide)).2.2⟩

mutual
theorem removeTags_noBanned_node : ∀ (tags : List String) (x : Html),
    isRemovedTag tags x = false → noBannedNode tags (removeTagsNode tags x) = true
  | _, .text _, _ => rfl
  | tags, .elem t c i cs, hr => by
    simp only [isRemovedTag] at hr
    simp only [removeTagsNode, noBannedNode, Bool.and_eq_true, Bool.not_eq_true']
    exact ⟨hr, removeTags_noBanned_list tags cs⟩

theorem removeTags_noBanned_list : ∀ (tags : List String) (l : List Html),
    noBannedList tags (removeTagsList tags l) = true
  | _, [] => rfl
  | tags, x :: rest => by
    by_cases hr : isRemovedTag tags x = true
    · rw [show removeTagsList tags (x :: rest) = removeTagsList tags rest from by
        simp [removeTagsList, hr]]
      exact removeTags_noBanned_list tags rest
    · have hxf : isRemovedTag tags x = false := by simpa using hr
      rw [show removeTagsList tags (x :: rest) =
          removeTagsNode tags x :: removeTagsList tags rest from by
        simp [removeTagsList, hr]]
      simp only [noBannedList, Bool.and_eq_true]
      exact ⟨removeTags_noBanned_node tags x hxf, removeTags_noBanned_list tags rest⟩
end

/-- Decomposition removes every element carrying one of the tags. -/
theorem removeTags_noBanned (tags : List String) (soup : Html) :
    noBannedList tags (childrenOf (removeTags tags soup)) = true := by
  cases soup with
  | text s => rfl
  | elem t c i cs => exact removeTags_noBanned_list tags cs

theorem firstSelectorMatch_first : ∀ (soup : Html) (sels₁ : List String) (sel : String)
    (sels₂ : List String) (m : Html),
    (∀ s ∈ sels₁, soup_select_one soup s = none) → soup_select_one soup sel = some m →
    firstSelectorMatch soup (sels₁ ++ sel :: sels₂) = some m := by
  intro soup sels₁
  induction sels₁ with
  | nil =>
    intro sel sels₂ m _ hm
    simp only [List.nil_append, firstSelectorMatch]
    rw [hm]
  | cons s₀ rest ih =>
    intro sel sels₂ m hnone hm
    simp only [List.cons_append, firstSelectorMatch]
    rw [hnone s₀ (by simp)]
    exact ih sel sels₂ m (fun s hs => hnone s (by simp [hs])) hm

theorem firstSelectorMatch_none : ∀ (soup : Html) (sels : List String),
    (∀ s ∈ sels, soup_select_one soup s = none) → firstSelectorMatch soup sels = none := by
  intro soup sels
  induction sels with
  | nil => intro; rfl
  | cons s₀ rest ih =>
    intro hnone
    simp only [firstSelectorMatch]
    rw [hnone s₀ (by simp)]
    exact ih (fun s hs => hnone s (by simp [hs]))

/-- C7 counterexample: on `c7doc` the Default `extract_content` differs
from the spec-described plain-text serialisation of the main region — it
returns the restructured heading-block rendering instead. -/
theorem c7_counterexample :
    base_extract_content c7doc ≠ base_extract_plain c7doc := by decide

/-- C7 (amended): the Default `extract_content` removes
script/style/nav/footer/iframe elements, locates the main-content region
by trying the candidate selectors in order with first match winning
(falling back to the body when none matches), and serialises that region
as whitespace-cleaned plain text exactly when the heading walk yields no
content parts; when the walk yields parts, it returns the heading-block
rendering joined by newlines instead. -/
theorem c7_default_extraction :
    (∀ (tags : List String) (soup : Html),
        noBannedList tags (childrenOf (removeTags tags soup)) = true) ∧
    (∀ (soup : Html) (sels₁ : List String) (sel : String) (sels₂ : List String) (m : Html),
        baseSelectors = sels₁ ++ sel :: sels₂ →
        (∀ s ∈ sels₁, soup_select_one soup s = none) →
        soup_select_one soup sel = some m →
        base_main_content soup = some m) ∧
    (∀ soup : Html,
        (∀ s ∈ baseSelectors, soup_select_one soup s = none) →
        base_main_content soup = soup_body soup) ∧
    (∀ (soup m : Html),
        base_main_content
          (removeTags ["script", "style", "nav", "footer", "iframe"] soup) = some m →
        contentParts m = [] →
        base_extract_content soup = some (cleanText (getTextH m))) ∧
    (∀ (soup m : Html),
        base_main_content
          (removeTags ["script", "style", "nav", "footer", "iframe"] soup) = some m →
        contentParts m ≠ [] →
        base_extract_content soup =
          some (String.intercalate "\n" (contentParts m))) := by
  refine ⟨removeTags_noBanned, ?_, ?_, ?_, ?_⟩
  · intro soup sels₁ sel sels₂ m hdecomp hnone hm
    unfold base_main_content
    rw [hdecomp, firstSelectorMatch_first soup sels₁ sel sels₂ m hnone hm]
  · intro soup hnone
    unfold base_main_content
    rw [firstSelectorMatch_none soup baseSelectors hnone]
  · intro soup m h1 h2
    simp only [base_extract_content]
    rw [h1]
    simp [h2]
  · intro soup m h1 h2
    simp only [base_extract_content]
    rw [h1]
    simp [List.isEmpty_iff, h2]

/-- Concrete instantiation of `c7_default_extraction`: a document whose
`.main-content` selector matches resolves to that region, and a
heading-free document serialises to cleaned plain text. -/
theorem c7_default_extraction_witness :
    (baseSelectors = [] ++ ".main-content" :: ["main", "article", ".content", "#content"] ∧
     soup_select_one (Html.elem "[document]" [] none
        [Html.elem "div" ["main-content"] none [Html.text "hi"]]) ".main-content" =
       some (Html.elem "div" ["main-content"] none [Html.text "hi"]) ∧
     base_main_content (Html.elem "[document]" [] none
        [Html.elem "div" ["main-content"] none [Html.text "hi"]]) =
       some (Html.elem "div" ["main-content"] none [Html.text "hi"])) ∧
    (base_main_content
        (removeTags ["script", "style", "nav", "footer", "iframe"] c6doc) = some c6body ∧
     contentParts c6body = [] ∧
     base_extract_content c6doc = some (cleanText (getTextH c6body))) :=
  ⟨⟨rfl, rfl,
    c7_default_extraction.2.1 (Html.elem "[document]" [] none
        [Html.elem "div" ["main-content"] none [Html.text "hi"]])
      [] ".main-content" ["main", "article", ".content", "#content"]
      (Html.elem "div" ["main-content"] none [Html.text "hi"])
      rfl (by intro s hs; cases hs) rfl⟩,
   ⟨rfl, rfl,
    c7_default_extraction.2.2.2.1 c6doc c6body rfl rfl⟩⟩

theorem get_cached_frame (env : String → Option Page) (cap : Nat) (st : CrawlState)
    (url : String) :
    (get_cached_or_request env cap st url).1.visited_urls = st.visited_urls ∧
    (get_cached_or_request env cap st url).1.menu_tree = st.menu_tree ∧
    (get_cached_or_request env cap st url).1.base_url = st.base_url ∧
    (get_cached_or_request env cap st url).1.base_domain = st.base_domain ∧
    ((get_cached_or_request env cap st url).1.fetchLog = st.fetchLog ∨
     (get_cached_or_request env cap st url).1.fetchLog = st.fetchLog ++ [url]) := by
  cases h : alookup url st.response_cache with
  | some p => simp [get_cached_or_request, h]
  | none =>
    cases he : env url with
    | none => simp [get_cached_or_request, h, he]
    | some p => simp [get_cached_or_request, h, he]

theorem runBatch_dedup
    {f : String → CrawlState → CrawlState × Except String (List (String × String) × Option MenuNode)}
    (hf : VisitStep f) :
    ∀ (links : List String) (st : CrawlState), DedupInv st →
      DedupInv (runBatch f links st).1 ∧
      (∀ u ∈ st.visited_urls, u ∈ (runBatch f links st).1.visited_urls) ∧
      ((runBatch f links st).2.1.map Prod.fst).Nodup ∧
      (∀ k ∈ (runBatch f links st).2.1.map Prod.fst,
        k ∈ (runBatch f links st).1.visited_urls ∧ k ∉ st.visited_urls) := by
  intro links
  induction links with
  | nil =>
    intro st hinv
    exact ⟨hinv, fun u hu => hu, by simp [runBatch], by simp [runBatch]⟩
  | cons link rest ih =>
    intro st hinv
    obtain ⟨h1, h2, h3⟩ := hf link st hinv
    obtain ⟨g1, g2, g3, g4⟩ := ih (f link st).1 h1
    simp only [runBatch]
    cases hout : (f link st).2 with
    | error e =>
      refine ⟨g1, fun u hu => g2 u (h2 u hu), g3, ?_⟩
      intro k hk
      exact ⟨(g4 k hk).1, fun hmem => (g4 k hk).2 (h2 k hmem)⟩
    | ok p =>
      obtain ⟨sub, n⟩ := p
      obtain ⟨s3, s4⟩ := h3 sub n hout
      refine ⟨g1, fun u hu => g2 u (h2 u hu), ?_, ?_⟩
      · rw [List.map_append, List.nodup_append]
        refine ⟨s3, g3, ?_⟩
        intro k hk1 hk2
        exact (g4 k hk2).2 ((s4 k hk1).1)
      · intro k hk
        rw [List.map_append, List.mem_append] at hk
        rcases hk with hk | hk
        · exact ⟨g2 k (s4 k hk).1, (s4 k hk).2⟩
        · exact ⟨(g4 k hk).1, fun hmem => (g4 k hk).2 (h2 k hmem)⟩

theorem runChunksAux_dedup
    {f : String → CrawlState → CrawlState × Except String (List (String × String) × Option MenuNode)}
    (hf : VisitStep f) :
    ∀ (chunks : List (List String)) (st : CrawlState), DedupInv st →
      DedupInv (runChunksAux f chunks st).1 ∧
      (∀ u ∈ st.visited_urls, u ∈ (runChunksAux f chunks st).1.visited_urls) ∧
      ((runChunksAux f chunks st).2.1.map Prod.fst).Nodup ∧
      (∀ k ∈ (runChunksAux f chunks st).2.1.map Prod.fst,
        k ∈ (runChunksAux f chunks st).1.visited_urls ∧ k ∉ st.visited_urls) := by
  intro chunks
  induction chunks with
  | nil =>
    intro st hinv
    exact ⟨hinv, fun u hu => hu, by simp [runChunksAux], by simp [runChunksAux]⟩
  | cons chunk rest ih =>
    intro st hinv
    obtain ⟨h1, h2, h3, h4⟩ := runBatch_dedup hf
      (chunk.filter (fun link => !(st.visited_urls.contains link))) st hinv
    obtain ⟨g1, g2, g3, g4⟩ := ih
      (runBatch f (chunk.filter (fun link => !(st.visited_urls.contains link))) st).1 h1
    simp only [runChunksAux]
    refine ⟨g1, fun u hu => g2 u (h2 u hu), ?_, ?_⟩
    · rw [List.map_append, List.nodup_append]
      refine ⟨h3, g3, ?_⟩
      intro k hk1 hk2
      exact (g4 k hk2).2 ((h4 k hk1).1)
    · intro k hk
      rw [List.map_append, List.mem_append] at hk
      rcases hk with hk | hk
      · exact ⟨g2 k (h4 k hk).1, (h4 k hk).2⟩
      · exact ⟨(g4 k hk).1, fun hmem => (g4 k hk).2 (h2 k hmem)⟩

theorem initBase_frame (st : CrawlState) (url : String) :
    (initBase st url).visited_urls = st.visited_urls ∧
    (initBase st url).fetchLog = st.fetchLog ∧
    (initBase st url).menu_tree = st.menu_tree ∧
    (initBase st url).response_cache = st.response_cache := by
  unfold initBase
  split <;> exact ⟨rfl, rfl, rfl, rfl⟩

theorem fetched_state_facts (env : String → Option Page) (cfg : ScraperConfig)
    (url : String) (st st3 : CrawlState) (pg : Option Page)
    (hinv : DedupInv st) (hvis : url ∉ st.visited_urls)
    (hfr : get_cached_or_request env cfg.response_cache_size
      (initBase (markVisited st url) url) url = (st3, pg)) :
    st3.visited_urls = url :: st.visited_urls ∧ DedupInv st3 := by
  have hframe := get_cached_frame env cfg.response_cache_size
    (initBase (markVisited st url) url) url
  rw [hfr] at hframe
  have hIB := initBase_frame (markVisited st url) url
  have hv2 : (initBase (markVisited st url) url).visited_urls = url :: st.visited_urls := hIB.1
  have hf2 : (initBase (markVisited st url) url).fetchLog = st.fetchLog := hIB.2.1
  have hv3 : st3.visited_urls = url :: st.visited_urls := by rw [hframe.1, hv2]
  refine ⟨hv3, ?_, ?_⟩
  · rcases hframe.2.2.2.2 with hsame | happ
    · rw [hsame, hf2]; exact hinv.1
    · rw [happ, hf2]
      rw [List.nodup_append]
      refine ⟨hinv.1, List.nodup_singleton url, ?_⟩
      intro u hu hu'
      rw [List.mem_singleton.mp hu'] at hu
      exact hvis (hinv.2 url hu)
  · intro u hu
    rw [hv3]
    rcases hframe.2.2.2.2 with hsame | happ
    · rw [hsame, hf2] at hu
      exact List.mem_cons_of_mem _ (hinv.2 u hu)
    · rw [happ, hf2] at hu
      rcases List.mem_append.mp hu with hu | hu
      · exact List.mem_cons_of_mem _ (hinv.2 u hu)
      · rw [List.mem_singleton.mp hu]
        exact List.mem_cons_self _ _

theorem ite_menu_visited (b : Bool) (s : CrawlState) (x : Option MenuNode) :
    (if b = true then { s with menu_tree := x } else s).visited_urls = s.visited_urls := by
  cases b <;> simp

theorem ite_menu_fetchLog (b : Bool) (s : CrawlState) (x : Option MenuNode) :
    (if b = true then { s with menu_tree := x } else s).fetchLog = s.fetchLog := by
  cases b <;> simp

theorem ite_menu_base_url (b : Bool) (s : CrawlState) (x : Option MenuNode) :
    (if b = true then { s with menu_tree := x } else s).base_url = s.base_url := by
  cases b <;> simp

theorem ite_menu_base_domain (b : Bool) (s : CrawlState) (x : Option MenuNode) :
    (if b = true then { s with menu_tree := x } else s).base_domain = s.base_domain := by
  cases b <;> simp

theorem ite_menu_dedup (b : Bool) (s : CrawlState) (x : Option MenuNode)
    (h : DedupInv s) : DedupInv (if b = true then { s with menu_tree := x } else s) := by
  cases b <;> simpa [DedupInv] using h

theorem scrape_page_dedup (env : String → Option Page) (cfg : ScraperConfig) :
    ∀ (d : Nat) (url : String) (parent : Option MenuNode) (st : CrawlState),
      DedupInv st →
      DedupInv (scrape_page env cfg d url parent st).1 ∧
      (∀ u ∈ st.visited_urls, u ∈ (scrape_page env cfg d url parent st).1.visited_urls) ∧
      (∀ m n, (scrape_page env cfg d url parent st).2 = Except.ok (m, n) →
        (m.map Prod.fst).Nodup ∧
        ∀ k ∈ m.map Prod.fst,
          k ∈ (scrape_page env cfg d url parent st).1.visited_urls ∧ k ∉ st.visited_urls) := by
  intro d
  induction d with
  | zero =>
    intro url parent st hinv
    by_cases hval : is_valid_url url = false
    · rw [scrape_page, if_pos hval]
      exact ⟨hinv, fun u hu => hu, fun m n h => by cases h⟩
    · by_cases hvis : url ∈ st.visited_urls
      · rw [scrape_page, if_neg hval, if_pos hvis]
        refine ⟨hinv, fun u hu => hu, ?_⟩
        intro m n h
        have hm : m = [] := by cases h; rfl
        subst hm
        exact ⟨by simp, by simp⟩
      · rcases hfr : get_cached_or_request env cfg.response_cache_size
            (initBase (markVisited st url) url) url with ⟨st3, pg⟩
        obtain ⟨hv3, hinv3⟩ :=
          fetched_state_facts env cfg url st st3 pg hinv hvis hfr
        cases pg with
        | none =>
          rw [scrape_page, if_neg hval, if_neg hvis, hfr]
          dsimp only
          refine ⟨hinv3, ?_, fun m n h => by cases h⟩
          intro u hu
          rw [hv3]
          exact List.mem_cons_of_mem _ hu
        | some page =>
          rw [scrape_page, if_neg hval, if_neg hvis, hfr]
          dsimp only
          refine ⟨ite_menu_dedup _ _ _ (ite_menu_dedup _ _ _ hinv3), ?_, ?_⟩
          · intro u hu
            rw [ite_menu_visited, ite_menu_visited, hv3]
            exact List.mem_cons_of_mem _ hu
          · intro m n h
            have hm : m = [(url, page.text)] := by cases h; rfl
            subst hm
            refine ⟨by simp, ?_⟩
            intro k hk
            rw [List.map_singleton, List.mem_singleton] at hk
            subst hk
            refine ⟨?_, hvis⟩
            rw [ite_menu_visited, ite_menu_visited, hv3]
            exact List.mem_cons_self _ _
  | succ d' ih =>
    intro url parent st hinv
    by_cases hval : is_valid_url url = false
    · rw [scrape_page, if_pos hval]
      exact ⟨hinv, fun u hu => hu, fun m n h => by cases h⟩
    · by_cases hvis : url ∈ st.visited_urls
      · rw [scrape_page, if_neg hval, if_pos hvis]
        refine ⟨hinv, fun u hu => hu, ?_⟩
        intro m n h
        have hm : m = [] := by cases h; rfl
        subst hm
        exact ⟨by simp, by simp⟩
      · rcases hfr : get_cached_or_request env cfg.response_cache_size
            (initBase (markVisited st url) url) url with ⟨st3, pg⟩
        obtain ⟨hv3, hinv3⟩ :=
          fetched_state_facts env cfg url st st3 pg hinv hvis hfr
        cases pg with
        | none =>
          rw [scrape_page, if_neg hval, if_neg hvis, hfr]
          dsimp only
          refine ⟨hinv3, ?_, fun m n h => by cases h⟩
          intro u hu
          rw [hv3]
          exact List.mem_cons_of_mem _ hu
        | some page =>
          rw [scrape_page, if_neg hval, if_neg hvis, hfr]
          dsimp only
          set proto := MenuNode.mk url page.title [] (parentLevel parent)
            (Option.map MenuNode.url parent) with hproto
          set st4 := if st3.menu_tree.isNone = true then
            { st3 with menu_tree := some proto } else st3 with hst4
          have hv4 : st4.visited_urls = st3.visited_urls := ite_menu_visited _ _ _
          have hinv4 : DedupInv st4 := ite_menu_dedup _ _ _ hinv3
          have hstep : VisitStep
              (fun link s => scrape_page env cfg d' link (some proto) s) :=
            fun u s hi => ih u (some proto) s hi
          obtain ⟨e1, e2, e3, e4⟩ := runChunksAux_dedup hstep
            (toChunks cfg.batch_size
              (filter_urls cfg st4.visited_urls st4.base_url st4.base_domain page.links))
            st4 hinv4
          set ex := runChunksAux (fun link s => scrape_page env cfg d' link (some proto) s)
            (toChunks cfg.batch_size
              (filter_urls cfg st4.visited_urls st4.base_url st4.base_domain page.links))
            st4 with hex
          refine ⟨ite_menu_dedup _ _ _ e1, ?_, ?_⟩
          · intro u hu
            rw [ite_menu_visited]
            apply e2
            rw [hv4, hv3]
            exact List.mem_cons_of_mem _ hu
          · intro m n h
            have hm : m = (url, page.text) :: ex.2.1 := by cases h; rfl
            subst hm
            have hurl4 : url ∈ st4.visited_urls := by
              rw [hv4, hv3]; exact List.mem_cons_self _ _
            constructor
            · rw [List.map_cons, List.nodup_cons]
              exact ⟨fun hk => (e4 url hk).2 hurl4, e3⟩
            · intro k hk
              rw [List.map_cons, List.mem_cons] at hk
              rcases hk with rfl | hk
              · refine ⟨?_, hvis⟩
                rw [ite_menu_visited]
                exact e2 k hurl4
              · refine ⟨?_, ?_⟩
                · rw [ite_menu_visited]
                  exact (e4 k hk).1
                · intro hmem
                  exact (e4 k hk).2 (by rw [hv4, hv3]; exact List.mem_cons_of_mem _ hmem)

/-- C1: a URL already in `visited_urls` makes `scrape_page` return
`({}, None)` at once, with no fetch and no state mutation; otherwise the
URL is inserted before fetching, so across a run the fetch log stays
duplicate-free (no URL is fetched twice) and the returned ContentMap has
each URL as a key at most once. -/
theorem c1_dedup (env : String → Option Page) (cfg : ScraperConfig)
    (d : Nat) (url : String) (parent : Option MenuNode) (st : CrawlState) :
    (is_valid_url url = true → url ∈ st.visited_urls →
      scrape_page env cfg d url parent st = (st, Except.ok ([], none))) ∧
    (st.fetchLog.Nodup → (∀ u ∈ st.fetchLog, u ∈ st.visited_urls) →
      ((scrape_page env cfg d url parent st).1.fetchLog.Nodup ∧
       (∀ u ∈ (scrape_page env cfg d url parent st).1.fetchLog,
          u ∈ (scrape_page env cfg d url parent st).1.visited_urls) ∧
       ∀ m n, (scrape_page env cfg d url parent st).2 = Except.ok (m, n) →
         (m.map Prod.fst).Nodup)) := by
  constructor
  · intro hval hvis
    rw [scrape_page, if_neg (by simp [hval]), if_pos hvis]
  · intro h1 h2
    obtain ⟨i1, i2, i3⟩ := scrape_page_dedup env cfg d url parent st ⟨h1, h2⟩
    exact ⟨i1.1, i1.2, fun m n h => (i3 m n h).1⟩

/-- Concrete instantiation of `c1_dedup`: a visited URL is a no-op, and a
fresh one-page crawl has a duplicate-free fetch log. -/
theorem c1_dedup_witness :
    (is_valid_url "https://ex.com/docs" = true ∧
     "https://ex.com/docs" ∈
       ({ initState with visited_urls := ["https://ex.com/docs"] } : CrawlState).visited_urls ∧
     scrape_page (fun _ => none) {} 1 "https://ex.com/docs" none
        { initState with visited_urls := ["https://ex.com/docs"] } =
       ({ initState with visited_urls := ["https://ex.com/docs"] }, Except.ok ([], none))) ∧
    ((initState.fetchLog.Nodup ∧ ∀ u ∈ initState.fetchLog, u ∈ initState.visited_urls) ∧
     (scrape_page (fun _ => none) {} 1 "https://ex.com/docs" none initState).1.fetchLog.Nodup) :=
  ⟨⟨rfl, by decide,
    (c1_dedup (fun _ => none) {} 1 "https://ex.com/docs" none
      { initState with visited_urls := ["https://ex.com/docs"] }).1 rfl (by decide)⟩,
   ⟨⟨by decide, by decide⟩,
    ((c1_dedup (fun _ => none) {} 1 "https://ex.com/docs" none initState).2
      (by decide) (by decide)).1⟩⟩

theorem childLevelsOkList_of_forall (L : Nat) :
    ∀ ks : List MenuNode, (∀ k ∈ ks, k.level = L + 1 ∧ childLevelsOk k = true) →
      childLevelsOkList L ks = true := by
  intro ks
  induction ks with
  | nil => intro _; rfl
  | cons k rest ih =>
    intro h
    simp only [childLevelsOkList, Bool.and_eq_true]
    exact ⟨⟨by simp [(h k (by simp)).1], (h k (by simp)).2⟩,
      ih (fun x hx => h x (by simp [hx]))⟩

theorem nodesOfList_bound (B : Nat) :
    ∀ ks : List MenuNode, (∀ k ∈ ks, ∀ x ∈ nodesOf k, x.level ≤ B) →
      ∀ x ∈ nodesOfList ks, x.level ≤ B := by
  intro ks
  induction ks with
  | nil => intro _ x hx; cases hx
  | cons k rest ih =>
    intro h x hx
    rw [nodesOfList, List.mem_append] at hx
    rcases hx with hx | hx
    · exact h k (by simp) x hx
    · exact ih (fun y hy => h y (by simp [hy])) x hx

theorem runBatch_levels
    {f : String → CrawlState → CrawlState × Except String (List (String × String) × Option MenuNode)}
    (L d' : Nat)
    (hf : ∀ url st m n, (f url st).2 = Except.ok (m, some n) →
      n.level = L + 1 ∧ (∀ x ∈ nodesOf n, x.level ≤ n.level + d') ∧ childLevelsOk n = true) :
    ∀ (links : List String) (st : CrawlState),
      ∀ k ∈ (runBatch f links st).2.2,
        k.level = L + 1 ∧ (∀ x ∈ nodesOf k, x.level ≤ L + 1 + d') ∧ childLevelsOk k = true := by
  intro links
  induction links with
  | nil => intro st k hk; simp [runBatch] at hk
  | cons link rest ih =>
    intro st k hk
    simp only [runBatch] at hk
    cases hout : (f link st).2 with
    | error e =>
      rw [hout] at hk
      exact ih (f link st).1 k hk
    | ok p =>
      obtain ⟨sub, nOpt⟩ := p
      rw [hout] at hk
      simp only [List.mem_append] at hk
      rcases hk with hk | hk
      · cases nOpt with
        | none => simp [Option.toList] at hk
        | some n0 =>
          simp only [Option.toList, List.mem_singleton] at hk
          subst hk
          obtain ⟨l1, l2, l3⟩ := hf link st sub k hout
          exact ⟨l1, by rw [← l1]; exact l2, l3⟩
      · exact ih (f link st).1 k hk

theorem runChunksAux_levels
    {f : String → CrawlState → CrawlState × Except String (List (String × String) × Option MenuNode)}
    (L d' : Nat)
    (hf : ∀ url st m n, (f url st).2 = Except.ok (m, some n) →
      n.level = L + 1 ∧ (∀ x ∈ nodesOf n, x.level ≤ n.level + d') ∧ childLevelsOk n = true) :
    ∀ (chunks : List (List String)) (st : CrawlState),
      ∀ k ∈ (runChunksAux f chunks st).2.2,
        k.level = L + 1 ∧ (∀ x ∈ nodesOf k, x.level ≤ L + 1 + d') ∧ childLevelsOk k = true := by
  intro chunks
  induction chunks with
  | nil => intro st k hk; simp [runChunksAux] at hk
  | cons chunk rest ih =>
    intro st k hk
    simp only [runChunksAux, List.mem_append] at hk
    rcases hk with hk | hk
    · exact runBatch_levels L d' hf _ st k hk
    · exact ih _ k hk

theorem runBatch_menu_pres
    {f : String → CrawlState → CrawlState × Except String (List (String × String) × Option MenuNode)}
    (hf : ∀ url st, st.menu_tree ≠ none → (f url st).1.menu_tree = st.menu_tree) :
    ∀ (links : List String) (st : CrawlState), st.menu_tree ≠ none →
      (runBatch f links st).1.menu_tree = st.menu_tree := by
  intro links
  induction links with
  | nil => intro st _; rfl
  | cons link rest ih =>
    intro st hne
    have h1 := hf link st hne
    have h2 := ih (f link st).1 (by rw [h1]; exact hne)
    simp only [runBatch]
    cases hout : (f link st).2 with
    | error e => rw [h2, h1]
    | ok p => obtain ⟨sub, nOpt⟩ := p; rw [h2, h1]

theorem runChunksAux_menu_pres
    {f : String → CrawlState → CrawlState × Except String (List (String × String) × Option MenuNode)}
    (hf : ∀ url st, st.menu_tree ≠ none → (f url st).1.menu_tree = st.menu_tree) :
    ∀ (chunks : List (List String)) (st : CrawlState), st.menu_tree ≠ none →
      (runChunksAux f chunks st).1.menu_tree = st.menu_tree := by
  intro chunks
  induction chunks with
  | nil => intro st _; rfl
  | cons chunk rest ih =>
    intro st hne
    have h1 := runBatch_menu_pres hf
      (chunk.filter (fun link => !(st.visited_urls.contains link))) st hne
    have h2 := ih _ (by rw [h1]; exact hne)
    simp only [runChunksAux]
    rw [h2, h1]

theorem scrape_page_menu_pres (env : String → Option Page) (cfg : ScraperConfig) :
    ∀ (d : Nat) (url : String) (parent : Option MenuNode) (st : CrawlState),
      st.menu_tree ≠ none →
      (scrape_page env cfg d url parent st).1.menu_tree = st.menu_tree := by
  intro d
  induction d with
  | zero =>
    intro url parent st hne
    by_cases hval : is_valid_url url = false
    · rw [scrape_page, if_pos hval]
    · by_cases hvis : url ∈ st.visited_urls
      · rw [scrape_page, if_neg hval, if_pos hvis]
      · rcases hfr : get_cached_or_request env cfg.response_cache_size
            (initBase (markVisited st url) url) url with ⟨st3, pg⟩
        have hframe := get_cached_frame env cfg.response_cache_size
          (initBase (markVisited st url) url) url
        rw [hfr] at hframe
        have hm3 : st3.menu_tree = st.menu_tree := by
          rw [hframe.2.1, (initBase_frame (markVisited st url) url).2.2.1]
          rfl
        have hfalse : st3.menu_tree.isNone = false := by
          rw [hm3]
          cases hmt : st.menu_tree with
          | none => exact absurd hmt hne
          | some v => rfl
        cases pg with
        | none =>
          rw [scrape_page, if_neg hval, if_neg hvis, hfr]
          exact hm3
        | some page =>
          rw [scrape_page, if_neg hval, if_neg hvis, hfr]
          dsimp only
          simp only [hfalse, Bool.false_eq_true, if_false]
          exact hm3
  | succ d' ih =>
    intro url parent st hne
    by_cases hval : is_valid_url url = false
    · rw [scrape_page, if_pos hval]
    · by_cases hvis : url ∈ st.visited_urls
      · rw [scrape_page, if_neg hval, if_pos hvis]
      · rcases hfr : get_cached_or_request env cfg.response_cache_size
            (initBase (markVisited st url) url) url with ⟨st3, pg⟩
        have hframe := get_cached_frame env cfg.response_cache_size
          (initBase (markVisited st url) url) url
        rw [hfr] at hframe
        have hm3 : st3.menu_tree = st.menu_tree := by
          rw [hframe.2.1, (initBase_frame (markVisited st url) url).2.2.1]
          rfl
        have hfalse : st3.menu_tree.isNone = false := by
          rw [hm3]
          cases hmt : st.menu_tree with
          | none => exact absurd hmt hne
          | some v => rfl
        cases pg with
        | none =>
          rw [scrape_page, if_neg hval, if_neg hvis, hfr]
          exact hm3
        | some page =>
          rw [scrape_page, if_neg hval, if_neg hvis, hfr]
          dsimp only
          simp only [hfalse, Bool.false_eq_true, if_false]
          rw [runChunksAux_menu_pres (fun u s hs => ih u _ s hs) _ st3
            (by rw [hm3]; exact hne)]
          exact hm3

theorem scrape_page_levels (env : String → Option Page) (cfg : ScraperConfig) :
    ∀ (d : Nat) (url : String) (parent : Option MenuNode) (st : CrawlState)
      (m : List (String × String)) (n : MenuNode),
      (scrape_page env cfg d url parent st).2 = Except.ok (m, some n) →
      n.level = parentLevel parent ∧
      (∀ x ∈ nodesOf n, x.level ≤ n.level + d) ∧
      childLevelsOk n = true ∧
      (d = 0 → n.children = []) := by
  intro d
  induction d with
  | zero =>
    intro url parent st m n h
    by_cases hval : is_valid_url url = false
    · rw [scrape_page, if_pos hval] at h
      cases h
    · by_cases hvis : url ∈ st.visited_urls
      · rw [scrape_page, if_neg hval, if_pos hvis] at h
        injection h with h'
        injection h' with h1 h2
        cases h2
      · rcases hfr : get_cached_or_request env cfg.response_cache_size
            (initBase (markVisited st url) url) url with ⟨st3, pg⟩
        cases pg with
        | none =>
          rw [scrape_page, if_neg hval, if_neg hvis, hfr] at h
          cases h
        | some page =>
          rw [scrape_page, if_neg hval, if_neg hvis, hfr] at h
          dsimp only at h
          injection h with h'
          injection h' with h1 h2
          injection h2 with h3
          subst h3
          refine ⟨rfl, ?_, rfl, fun _ => rfl⟩
          intro x hx
          rw [nodesOf] at hx
          rcases List.mem_cons.mp hx with rfl | hx
          · exact Nat.le_add_right _ _
          · cases hx
  | succ d' ih =>
    intro url parent st m n h
    by_cases hval : is_valid_url url = false
    · rw [scrape_page, if_pos hval] at h
      cases h
    · by_cases hvis : url ∈ st.visited_urls
      · rw [scrape_page, if_neg hval, if_pos hvis] at h
        injection h with h'
        injection h' with h1 h2
        cases h2
      · rcases hfr : get_cached_or_request env cfg.response_cache_size
            (initBase (markVisited st url) url) url with ⟨st3, pg⟩
        cases pg with
        | none =>
          rw [scrape_page, if_neg hval, if_neg hvis, hfr] at h
          cases h
        | some page =>
          rw [scrape_page, if_neg hval, if_neg hvis, hfr] at h
          dsimp only at h
          injection h with h'
          injection h' with h1 h2
          injection h2 with h3
          subst h3
          have hkids : ∀ k ∈ (runChunksAux
              (fun link s => scrape_page env cfg d' link
                (some (MenuNode.mk url page.title [] (parentLevel parent)
                  (Option.map MenuNode.url parent))) s)
              (toChunks cfg.batch_size
                (filter_urls cfg
                  (if st3.menu_tree.isNone = true then
                      { st3 with menu_tree := some (MenuNode.mk url page.title []
                        (parentLevel parent) (Option.map MenuNode.url parent)) }
                    else st3).visited_urls
                  (if st3.menu_tree.isNone = true then
                      { st3 with menu_tree := some (MenuNode.mk url page.title []
                        (parentLevel parent) (Option.map MenuNode.url parent)) }
                    else st3).base_url
                  (if st3.menu_tree.isNone = true then
                      { st3 with menu_tree := some (MenuNode.mk url page.title []
                        (parentLevel parent) (Option.map MenuNode.url parent)) }
                    else st3).base_domain page.links))
              (if st3.menu_tree.isNone = true then
                  { st3 with menu_tree := some (MenuNode.mk url page.title []
                    (parentLevel parent) (Option.map MenuNode.url parent)) }
                else st3)).2.2,
              k.level = parentLevel parent + 1 ∧
              (∀ x ∈ nodesOf k, x.level ≤ parentLevel parent + 1 + d') ∧
              childLevelsOk k = true :=
            runChunksAux_levels (parentLevel parent) d'
              (fun url' st' m' n' h' =>
                have r := ih url' (some (MenuNode.mk url page.title [] (parentLevel parent)
                  (Option.map MenuNode.url parent))) st' m' n' h'
                ⟨r.1, r.2.1, r.2.2.1⟩) _ _
          refine ⟨rfl, ?_, ?_, fun h0 => absurd h0 (Nat.succ_ne_zero d')⟩
          · intro x hx
            rw [nodesOf] at hx
            rcases List.mem_cons.mp hx with rfl | hx
            · exact Nat.le_add_right _ _
            · have hb := nodesOfList_bound (parentLevel parent + 1 + d') _
                (fun k hk => (hkids k hk).2.1) x hx
              show x.level ≤ parentLevel parent + (d' + 1)
              omega
          · rw [childLevelsOk]
            exact childLevelsOkList_of_forall _ _
              (fun k hk => ⟨(hkids k hk).1, (hkids k hk).2.2⟩)

theorem scrape_page_root_tree (env : String → Option Page) (cfg : ScraperConfig) :
    ∀ (d : Nat) (url : String) (st : CrawlState) (m : List (String × String)) (n : MenuNode),
      st.menu_tree = none →
      (scrape_page env cfg d url none st).2 = Except.ok (m, some n) →
      (scrape_page env cfg d url none st).1.menu_tree = some n := by
  intro d url st m n hmt h
  by_cases hval : is_valid_url url = false
  · rw [scrape_page, if_pos hval] at h
    cases h
  · by_cases hvis : url ∈ st.visited_urls
    · rw [scrape_page, if_neg hval, if_pos hvis] at h
      injection h with h'
      injection h' with h1 h2
      cases h2
    · rcases hfr : get_cached_or_request env cfg.response_cache_size
          (initBase (markVisited st url) url) url with ⟨st3, pg⟩
      have hframe := get_cached_frame env cfg.response_cache_size
        (initBase (markVisited st url) url) url
      rw [hfr] at hframe
      have hm3 : st3.menu_tree = none := by
        rw [hframe.2.1, (initBase_frame (markVisited st url) url).2.2.1]
        exact hmt
      have htrue : st3.menu_tree.isNone = true := by rw [hm3]; rfl
      cases pg with
      | none =>
        rw [scrape_page, if_neg hval, if_neg hvis, hfr] at h
        cases h
      | some page =>
        rw [scrape_page, if_neg hval, if_neg hvis, hfr] at h ⊢
        dsimp only at h ⊢
        simp only [htrue, if_true] at h ⊢
        simp only [Except.ok.injEq, Prod.mk.injEq] at h
        exact h.2

/-- C2: a crawl started at the root produces a menu tree in which every
node's level is at most `max_depth`, the root has level 0, every non-root
node is exactly one level below its parent, and a page visited with
`max_depth = 0` never expands links (its node has no children). -/
theorem c2_depth_bound (env : String → Option Page) (cfg : ScraperConfig)
    (d : Nat) (url : String) (st : CrawlState) (m : List (String × String)) (n : MenuNode)
    (hroot : st.menu_tree = none)
    (h : (scrape_page env cfg d url none st).2 = Except.ok (m, some n)) :
    (scrape_page env cfg d url none st).1.menu_tree = some n ∧
    n.level = 0 ∧
    (∀ x ∈ nodesOf n, x.level ≤ d) ∧
    childLevelsOk n = true ∧
    (∀ (url' : String) (parent : Option MenuNode) (st' : CrawlState)
        (m' : List (String × String)) (n' : MenuNode),
        (scrape_page env cfg 0 url' parent st').2 = Except.ok (m', some n') →
        n'.children = []) ∧
    (∀ (d' : Nat) (url' : String) (parent : Option MenuNode) (st' : CrawlState)
        (m' : List (String × String)) (n' : MenuNode),
        (scrape_page env cfg d' url' parent st').2 = Except.ok (m', some n') →
        n'.level = parentLevel parent) := by
  obtain ⟨l1, l2, l3, l4⟩ := scrape_page_levels env cfg d url none st m n h
  refine ⟨scrape_page_root_tree env cfg d url st m n hroot h, l1, ?_, l3, ?_, ?_⟩
  · intro x hx
    have hb := l2 x hx
    rw [l1] at hb
    simpa [parentLevel] using hb
  · intro url' parent st' m' n' h'
    exact (scrape_page_levels env cfg 0 url' parent st' m' n' h').2.2.2 rfl
  · intro d' url' parent st' m' n' h'
    exact (scrape_page_levels env cfg d' url' parent st' m' n' h').1

/-- Concrete instantiation of `c2_depth_bound` on a depth-1 crawl. -/
theorem c2_depth_bound_witness :
    initState.menu_tree = none ∧
    (scrape_page crawlEnv crawlCfg 1 "https://ex.com/docs" none initState).2 =
      Except.ok
        ([("https://ex.com/docs", "root text"), ("https://ex.com/docs/a", "a text")],
         some rootNode) ∧
    ((scrape_page crawlEnv crawlCfg 1 "https://ex.com/docs" none initState).1.menu_tree =
        some rootNode ∧
     rootNode.level = 0 ∧
     (∀ x ∈ nodesOf rootNode, x.level ≤ 1) ∧
     childLevelsOk rootNode = true) :=
  ⟨rfl, rfl,
    have r := c2_depth_bound crawlEnv crawlCfg 1 "https://ex.com/docs" initState
      [("https://ex.com/docs", "root text"), ("https://ex.com/docs/a", "a text")]
      rootNode rfl rfl
    ⟨r.1, r.2.1, r.2.2.1, r.2.2.2.1⟩⟩

/-! ## C3: error containment and propagation -/

/-- C3: a fetchable page makes `scrape_page` return successfully no
matter how many of its discovered links fail (per-link failures are
caught inside the expansion loop and only drop that link's
contribution); a fetch failure raises out of `scrape_page` but leaves
the URL in `visited_urls` (never retried in the run) while producing no
content; and a root failure propagates through `scrape_site` to the
caller. -/
theorem c3_error_handling (env : String → Option Page) (cfg : ScraperConfig) :
    (∀ (d : Nat) (url : String) (parent : Option MenuNode) (st : CrawlState) (page : Page),
        is_valid_url url = true → url ∉ st.visited_urls →
        (alookup url st.response_cache = some page ∨
         (alookup url st.response_cache = none ∧ env url = some page)) →
        ∃ m n, (scrape_page env cfg d url parent st).2 = Except.ok (m, some n)) ∧
    (∀ (d : Nat) (url : String) (parent : Option MenuNode) (st : CrawlState),
        is_valid_url url = true → url ∉ st.visited_urls →
        alookup url st.response_cache = none → env url = none →
        (scrape_page env cfg d url parent st).2 = Except.error "Failed to fetch URL" ∧
        (scrape_page env cfg d url parent st).1.visited_urls = url :: st.visited_urls) ∧
    (∀ (d : Nat) (url : String) (st : CrawlState) (e : String),
        (scrape_page env cfg d url none st).2 = Except.error e →
        scrape_site env cfg url d st =
          ((scrape_page env cfg d url none st).1, Except.error e)) := by
  refine ⟨?_, ?_, ?_⟩
  · intro d url parent st page hval hvis hav
    have hcache2 : alookup url (initBase (markVisited st url) url).response_cache =
        alookup url st.response_cache := by
      rw [(initBase_frame (markVisited st url) url).2.2.2]
      rfl
    have h2nd : (get_cached_or_request env cfg.response_cache_size
        (initBase (markVisited st url) url) url).2 = some page := by
      unfold get_cached_or_request
      rw [hcache2]
      rcases hav with hhit | ⟨hmiss, henv⟩
      · rw [hhit]
      · rw [hmiss, henv]
    rcases hfr : get_cached_or_request env cfg.response_cache_size
        (initBase (markVisited st url) url) url with ⟨st3, pg⟩
    rw [hfr] at h2nd
    dsimp only at h2nd
    subst h2nd
    exact ⟨_, _, by rw [scrape_page, if_neg (by simp [hval]), if_neg hvis, hfr]⟩
  · intro d url parent st hval hvis hmiss henv
    have hcache2 : alookup url (initBase (markVisited st url) url).response_cache =
        alookup url st.response_cache := by
      rw [(initBase_frame (markVisited st url) url).2.2.2]
      rfl
    have h2nd : (get_cached_or_request env cfg.response_cache_size
        (initBase (markVisited st url) url) url).2 = none := by
      unfold get_cached_or_request
      rw [hcache2, hmiss, henv]
    rcases hfr : get_cached_or_request env cfg.response_cache_size
        (initBase (markVisited st url) url) url with ⟨st3, pg⟩
    rw [hfr] at h2nd
    dsimp only at h2nd
    subst h2nd
    have hframe := get_cached_frame env cfg.response_cache_size
      (initBase (markVisited st url) url) url
    rw [hfr] at hframe
    have hv3 : st3.visited_urls = url :: st.visited_urls := by
      rw [hframe.1, (initBase_frame (markVisited st url) url).1]
      rfl
    constructor
    · rw [scrape_page, if_neg (by simp [hval]), if_neg hvis, hfr]
    · rw [scrape_page, if_neg (by simp [hval]), if_neg hvis, hfr]
      exact hv3
  · intro d url st e h
    rcases hsp : scrape_page env cfg d url none st with ⟨st', out⟩
    rw [hsp] at h
    dsimp only at h
    subst h
    unfold scrape_site
    rw [hsp]

/-- Concrete instantiation of `c3_error_handling`: the root page of
`crawlEnv` succeeds even though one of its links fails to fetch, and the
failing link's own visit raises while staying visited. -/
theorem c3_error_handling_witness :
    (is_valid_url "https://ex.com/docs" = true ∧
     "https://ex.com/docs" ∉ initState.visited_urls ∧
     (alookup "https://ex.com/docs" initState.response_cache = none ∧
      crawlEnv "https://ex.com/docs" =
        some { title := "Root", text := "root text",
               links := ["https://ex.com/docs/a", "https://ex.com/docs/b"] }) ∧
     (∃ m n, (scrape_page crawlEnv crawlCfg 1 "https://ex.com/docs" none initState).2 =
        Except.ok (m, some n))) ∧
    (is_valid_url "https://ex.com/docs/b" = true ∧
     crawlEnv "https://ex.com/docs/b" = none ∧
     ((scrape_page crawlEnv crawlCfg 1 "https://ex.com/docs/b" none initState).2 =
        Except.error "Failed to fetch URL" ∧
      (scrape_page crawlEnv crawlCfg 1 "https://ex.com/docs/b" none initState).1.visited_urls =
        "https://ex.com/docs/b" :: initState.visited_urls)) :=
  ⟨⟨rfl, by decide,
    ⟨rfl, rfl⟩,
    (c3_error_handling crawlEnv crawlCfg).1 1 "https://ex.com/docs" none initState
      { title := "Root", text := "root text",
        links := ["https://ex.com/docs/a", "https://ex.com/docs/b"] }
      rfl (by decide) (Or.inr ⟨rfl, rfl⟩)⟩,
   ⟨rfl, rfl,
    (c3_error_handling crawlEnv crawlCfg).2.1 1 "https://ex.com/docs/b" none initState
      rfl (by decide) rfl rfl⟩⟩
